import Mathlib

/-!
Verification of the smart-form-predictor core against its specification.

The JavaScript source is shallowly embedded: JavaScript scalar values become
the inductive `JSVal` (numbers are modelled as exact rationals `ℚ`), JavaScript
objects and ES `Map`s become insertion-ordered association lists
`List (String × _)` (updating an existing key keeps its position, a new key is
appended, exactly as in the JS semantics), and ES `Set`s become duplicate-free
insertion-ordered lists.  String primitives used by the source
(`includes`, `startsWith`, `toLowerCase`, `split`, `trim`) are re-implemented
by structural recursion over the character list so that every definition is
kernel-computable.  Randomness (`Math.random`) is abstracted as an explicit
sample-stream parameter.
-/

/-- JavaScript scalar values as they occur in the library's records:
numbers (modelled as exact rationals), strings, `null` and `undefined`. -/
inductive JSVal where
  | num (q : ℚ)
  | str (s : String)
  | jsNull
  | undef
deriving DecidableEq

/-- A datum handled by the privacy layer: either a plain object
(an insertion-ordered association list of fields) or a primitive value. -/
inductive JSData where
  | obj (fields : List (String × JSVal))
  | prim (v : JSVal)
deriving DecidableEq

/-- Lookup in a JS object / Map: the value at the first (unique) matching key. -/
def jsGet {α : Type} (l : List (String × α)) (k : String) : Option α :=
  (l.find? (fun kv => kv.fst == k)).map Prod.snd

/-- `record.k !== undefined`: the key is present and its value is not `undefined`. -/
def jsDefined (l : List (String × JSVal)) (k : String) : Bool :=
  match jsGet l k with
  | some JSVal.undef => false
  | some _ => true
  | none => false

/-- JS object / Map update (`o[k] = v` / `m.set(k, v)`): an existing key keeps
its position in the insertion order, a new key is appended at the end. -/
def jsSet {α : Type} (l : List (String × α)) (k : String) (v : α) : List (String × α) :=
  if l.any (fun kv => kv.fst == k) then
    l.map (fun kv => if kv.fst == k then (kv.fst, v) else kv)
  else l ++ [(k, v)]

/-- Whether `p` is a prefix of the second list (char-by-char comparison). -/
def listIsPrefixOf : List Char → List Char → Bool
  | [], _ => true
  | _ :: _, [] => false
  | p :: ps, c :: cs => p == c && listIsPrefixOf ps cs

/-- `String.prototype.startsWith`: `jsStartsWith s p` is `s.startsWith(p)`. -/
def jsStartsWith (s pre : String) : Bool :=
  listIsPrefixOf pre.toList s.toList

/-- Whether `sub` occurs as a contiguous sublist. -/
def listContainsSub (sub : List Char) : List Char → Bool
  | [] => sub.isEmpty
  | c :: cs => listIsPrefixOf sub (c :: cs) || listContainsSub sub cs

/-- `String.prototype.includes`: `jsIncludes s sub` is `s.includes(sub)`. -/
def jsIncludes (s sub : String) : Bool :=
  listContainsSub sub.toList s.toList

/-- ASCII lower-casing of one character (the field names the library
compares are ASCII, so this matches `toLowerCase` on them). -/
def charToLower (c : Char) : Char :=
  if 'A' ≤ c && c ≤ 'Z' then Char.ofNat (c.toNat + 32) else c

/-- `String.prototype.toLowerCase` (ASCII). -/
def jsToLower (s : String) : String :=
  ⟨s.toList.map charToLower⟩

/-- Split a character list at every occurrence of `sep`
(JS `String.prototype.split` with a one-character separator:
`"a,b".split(',') = ["a","b"]`, `"".split(',') = [""]`). -/
def listSplitOnChar (sep : Char) : List Char → List (List Char)
  | [] => [[]]
  | c :: cs =>
    let rest := listSplitOnChar sep cs
    if c == sep then [] :: rest
    else
      match rest with
      | r :: rs => (c :: r) :: rs
      | [] => [[c]]

/-- `s.split(sep)` for a one-character separator. -/
def jsSplitChar (s : String) (sep : Char) : List String :=
  (listSplitOnChar sep s.toList).map (fun l => (⟨l⟩ : String))

/-- `String.prototype.trim`: drop whitespace from both ends. -/
def jsTrim (s : String) : String :=
  ⟨((s.toList.dropWhile Char.isWhitespace).reverse.dropWhile Char.isWhitespace).reverse⟩

/-- The maximal whitespace-free runs of a character list, in order. -/
def wsTokensAux (acc : List Char) : List Char → List (List Char)
  | [] => if acc.isEmpty then [] else [acc.reverse]
  | c :: cs =>
    if c.isWhitespace then
      if acc.isEmpty then wsTokensAux [] cs else acc.reverse :: wsTokensAux [] cs
    else wsTokensAux (c :: acc) cs

/-- `s.split(/\s+/)`: the separators are the maximal whitespace runs, so the
result is the non-whitespace tokens, with an extra empty string at the front
(resp. back) when the string starts (resp. ends) with whitespace, and
`"".split(/\s+/) = [""]`. -/
def jsSplitWs (s : String) : List String :=
  match s.toList with
  | [] => [""]
  | c :: cs =>
    let l := c :: cs
    let toks := (wsTokensAux [] l).map (fun t => (⟨t⟩ : String))
    let front := if c.isWhitespace then [""] else []
    let back := if (l.getLast (by simp)).isWhitespace then [""] else []
    front ++ toks ++ back

/-- Rendering of a JS value to a string (`value.toString()`).  JavaScript
renders numbers as shortest decimals; that is exact for integer values, and
none of the verified claims evaluates it on a non-integer. -/
def jsValToString (v : JSVal) : String :=
  match v with
  | JSVal.str s => s
  | JSVal.num q => if q.den = 1 then toString q.num else toString q
  | JSVal.jsNull => "null"
  | JSVal.undef => "undefined"

/-- JS truthiness for the scalar values of the model. -/
def jsTruthy (v : JSVal) : Bool :=
  match v with
  | JSVal.num q => !(q == 0)
  | JSVal.str s => !(s == "")
  | JSVal.jsNull => false
  | JSVal.undef => false

/-! ## PrivacyPreservingLearner (src/PrivacyPreservingLearner.js) -/

/-- The mutable state of a `PrivacyPreservingLearner`: total budget and
used budget (the constructor sets `privacyBudget = 1.0`, `usedBudget = 0`). -/
structure LearnerState where
  privacyBudget : ℚ
  usedBudget : ℚ
deriving DecidableEq

/-- The state produced by `new PrivacyPreservingLearner()`. -/
def initLearner : LearnerState := { privacyBudget := 1, usedBudget := 0 }

/-- `generalizeAge`: bucket a numeric age, leave non-numbers unchanged. -/
def generalizeAge (age : JSVal) : JSVal :=
  match age with
  | JSVal.num a =>
    if a < 18 then JSVal.str "minor"
    else if a < 30 then JSVal.str "young-adult"
    else if a < 50 then JSVal.str "middle-aged"
    else if a < 65 then JSVal.str "senior"
    else JSVal.str "elderly"
  | v => v

/-- `generalizeIncome`: bucket a numeric income, leave non-numbers unchanged. -/
def generalizeIncome (income : JSVal) : JSVal :=
  match income with
  | JSVal.num i =>
    if i < 30000 then JSVal.str "low"
    else if i < 60000 then JSVal.str "medium"
    else if i < 100000 then JSVal.str "high"
    else JSVal.str "very-high"
  | v => v

/-- `generalizeLocation`: keep only the city-level part of a comma-separated
string location (`parts[0].trim()` when there is more than one part). -/
def generalizeLocation (location : JSVal) : JSVal :=
  match location with
  | JSVal.str s =>
    let parts := jsSplitChar s ','
    if parts.length > 1 then JSVal.str (jsTrim (parts.headD ""))
    else JSVal.str s
  | v => v

/-- `generalizeIdCard` (present in the bundled copy of the class): mask the
middle of an id string of length at least 18, keeping a 6-char head and the
char at index 17 onwards. -/
def generalizeIdCard (idCard : JSVal) : JSVal :=
  match idCard with
  | JSVal.str s =>
    if 18 ≤ s.toList.length then
      JSVal.str ⟨s.toList.take 6 ++ "**********".toList ++ s.toList.drop 17⟩
    else JSVal.str s
  | v => v

/-- One record through the `src/` module's `generalizeSensitiveFields`: only a
defined `location` field is generalized; the code comments state that `age`,
`income`, `phone` and `email` are deliberately left as原始数据 (raw data) for
suggestion display. -/
def generalizeRecord (fields : List (String × JSVal)) : List (String × JSVal) :=
  if jsDefined fields "location" then
    fields.map (fun kv =>
      if kv.fst == "location" then (kv.fst, generalizeLocation kv.snd) else kv)
  else fields

/-- `generalizeSensitiveFields` of the `src/` module: map `generalizeRecord`
over the object records, leaving primitive records unchanged. -/
def generalizeSensitiveFields (data : List JSData) : List JSData :=
  data.map (fun r =>
    match r with
    | JSData.obj fields => JSData.obj (generalizeRecord fields)
    | JSData.prim v => JSData.prim v)

/-- One record through the stale bundled (dist) copy of
`generalizeSensitiveFields`, which instead buckets a defined `age` and
`income`, masks a defined `idCard` and truncates a defined `address`. -/
def generalizeRecordDist (fields : List (String × JSVal)) : List (String × JSVal) :=
  let f1 :=
    if jsDefined fields "age" then
      fields.map (fun kv => if kv.fst == "age" then (kv.fst, generalizeAge kv.snd) else kv)
    else fields
  let f2 :=
    if jsDefined f1 "income" then
      f1.map (fun kv => if kv.fst == "income" then (kv.fst, generalizeIncome kv.snd) else kv)
    else f1
  let f3 :=
    if jsDefined f2 "idCard" then
      f2.map (fun kv => if kv.fst == "idCard" then (kv.fst, generalizeIdCard kv.snd) else kv)
    else f2
  if jsDefined f3 "address" then
    f3.map (fun kv => if kv.fst == "address" then (kv.fst, generalizeLocation kv.snd) else kv)
  else f3

/-- The dist-bundle variant of `generalizeSensitiveFields`. -/
def generalizeSensitiveFieldsDist (data : List JSData) : List JSData :=
  data.map (fun r =>
    match r with
    | JSData.obj fields => JSData.obj (generalizeRecordDist fields)
    | JSData.prim v => JSData.prim v)

/-- Add Laplace noise to every numeric field of one record.  The random
samples of `generateLaplaceNoise` are abstracted as the stream `noise`
(`noise k scale` is the value of the k-th call, given its scale argument);
the counter threads through so consecutive numeric fields use fresh samples. -/
def noiseFields (noise : ℕ → ℚ → ℚ) (scale : ℚ) :
    List (String × JSVal) → ℕ → List (String × JSVal) × ℕ
  | [], k => ([], k)
  | (key, JSVal.num q) :: rest, k =>
    let tl := noiseFields noise scale rest (k + 1)
    ((key, JSVal.num (q + noise k scale)) :: tl.fst, tl.snd)
  | (key, v) :: rest, k =>
    let tl := noiseFields noise scale rest k
    ((key, v) :: tl.fst, tl.snd)

/-- Add Laplace noise across the record list (`addLaplaceNoise`'s `map`). -/
def noiseData (noise : ℕ → ℚ → ℚ) (scale : ℚ) :
    List JSData → ℕ → List JSData × ℕ
  | [], k => ([], k)
  | JSData.obj fields :: rest, k =>
    let f := noiseFields noise scale fields k
    let tl := noiseData noise scale rest f.snd
    (JSData.obj f.fst :: tl.fst, tl.snd)
  | JSData.prim (JSVal.num q) :: rest, k =>
    let tl := noiseData noise scale rest (k + 1)
    (JSData.prim (JSVal.num (q + noise k scale)) :: tl.fst, tl.snd)
  | JSData.prim v :: rest, k =>
    let tl := noiseData noise scale rest k
    (JSData.prim v :: tl.fst, tl.snd)

/-- `addLaplaceNoise(data, epsilon)` with `scale = 1 / epsilon`. -/
def addLaplaceNoise (noise : ℕ → ℚ → ℚ) (data : List JSData) (epsilon : ℚ) : List JSData :=
  (noiseData noise (1 / epsilon) data 0).fst

/-- `updateLocalModel` just returns the data (the source logs and returns). -/
def updateLocalModel (data : List JSData) : List JSData := data

/-- `learnWithPrivacy(rawData, privacyBudget)`: clamp the requested budget when
it would exceed the total; if the remainder is not positive, return the raw
data unchanged without touching the used budget; otherwise consume the budget
and run noise, generalization and the local update. -/
def learnWithPrivacy (noise : ℕ → ℚ → ℚ) (st : LearnerState)
    (rawData : List JSData) (privacyBudget : ℚ) : LearnerState × List JSData :=
  if st.usedBudget + privacyBudget > st.privacyBudget then
    if st.privacyBudget - st.usedBudget ≤ 0 then (st, rawData)
    else
      ({ st with usedBudget := st.usedBudget + (st.privacyBudget - st.usedBudget) },
       updateLocalModel (generalizeSensitiveFields
         (addLaplaceNoise noise rawData (st.privacyBudget - st.usedBudget))))
  else
    ({ st with usedBudget := st.usedBudget + privacyBudget },
     updateLocalModel (generalizeSensitiveFields (addLaplaceNoise noise rawData privacyBudget)))

/-- `resetPrivacyBudget()`. -/
def resetPrivacyBudget (st : LearnerState) : LearnerState :=
  { st with usedBudget := 0 }

/-- `getRemainingBudget()`. -/
def getRemainingBudget (st : LearnerState) : ℚ :=
  st.privacyBudget - st.usedBudget

/-- The learner state after a sequence of `learnWithPrivacy` calls
(each call is a pair of the raw data and the requested budget). -/
def runLearns (noise : ℕ → ℚ → ℚ) (calls : List (List JSData × ℚ))
    (st : LearnerState) : LearnerState :=
  calls.foldl (fun s c => (learnWithPrivacy noise s c.fst c.snd).fst) st

/-! ## Lookup lemmas for association lists -/

theorem jsGet_nil {α : Type} (k : String) : jsGet ([] : List (String × α)) k = none := rfl

theorem jsGet_cons {α : Type} (kv : String × α) (l : List (String × α)) (k : String) :
    jsGet (kv :: l) k = if kv.fst = k then some kv.snd else jsGet l k := by
  by_cases h : kv.fst = k
  · simp [jsGet, List.find?, h]
  · have hb : (kv.fst == k) = false := by simp [h]
    simp [jsGet, List.find?, h, hb]

theorem jsGet_mapKey {α : Type} (fields : List (String × α)) (k0 k : String) (f : α → α) :
    jsGet (fields.map (fun kv => if kv.fst == k0 then (kv.fst, f kv.snd) else kv)) k
      = if k = k0 then (jsGet fields k).map f else jsGet fields k := by
  induction fields with
  | nil => by_cases h : k = k0 <;> simp [jsGet, h]
  | cons hd tl ih =>
    obtain ⟨a, v⟩ := hd
    simp only [beq_iff_eq] at ih
    simp only [List.map_cons, beq_iff_eq]
    by_cases h1 : a = k0
    · subst h1
      by_cases hk : k = a
      · subst hk; simp [jsGet_cons, ih]
      · have hk' : ¬(a = k) := fun h => hk h.symm
        simp [jsGet_cons, hk, hk', ih]
    · by_cases h2 : a = k
      · subst h2
        simp [jsGet_cons, h1, ih]
      · simp [jsGet_cons, h1, h2, ih]

/-- The record produced by the `src/` generalization step keeps every key
other than `location` untouched and applies `generalizeLocation` at
`location`. -/
theorem generalizeRecord_jsGet (fields : List (String × JSVal)) (k : String) :
    jsGet (generalizeRecord fields) k
      = if k = "location" then (jsGet fields k).map generalizeLocation
        else jsGet fields k := by
  unfold generalizeRecord
  by_cases hdef : jsDefined fields "location"
  · rw [if_pos hdef, jsGet_mapKey]
  · rw [if_neg hdef]
    by_cases hk : k = "location"
    · subst hk
      unfold jsDefined at hdef
      match h : jsGet fields "location" with
      | none => simp [h]
      | some JSVal.undef => simp [h]; rfl
      | some (JSVal.num q) => rw [h] at hdef; simp at hdef
      | some (JSVal.str s) => rw [h] at hdef; simp at hdef
      | some JSVal.jsNull => rw [h] at hdef; simp at hdef
    · rw [if_neg hk]

/-- The concrete record used to refute claim C1 against the `src/` module. -/
def c1Record : List (String × JSVal) :=
  [("age", JSVal.num 45), ("income", JSVal.num 70000),
   ("email", JSVal.str "alice@example.com"), ("phone", JSVal.str "(555) 010-4477")]

/-- Claim C1, as stated, is false on the `src/` module: passing a record with
numeric `age = 45` through `PrivacyPreservingLearner.generalizeSensitiveFields`
returns the record unchanged — the age is still the number `45`, not the
bucket label `"middle-aged"`. -/
theorem claim_C1_counterexample :
    generalizeSensitiveFields [JSData.obj c1Record] = [JSData.obj c1Record] ∧
    jsGet c1Record "age" = some (JSVal.num 45) ∧
    JSVal.num 45 ≠ JSVal.str "middle-aged" := by
  refine ⟨by decide, by decide, by decide⟩

/-- Claim C1 (amended): in the `src/` module's generalization step the `age`,
`income`, `email` and `phone` fields are all left byte-identical to the input
(the step only generalizes a defined `location` field to city level).  The
bucketing helpers themselves do map age 45 to "middle-aged" and age 70 to
"elderly", and the stale dist-bundle copy of the step (which claim C1
describes) does apply them, as checked on the concrete record. -/
theorem claim_C1 (fields : List (String × JSVal)) :
    jsGet (generalizeRecord fields) "age" = jsGet fields "age" ∧
    jsGet (generalizeRecord fields) "income" = jsGet fields "income" ∧
    jsGet (generalizeRecord fields) "email" = jsGet fields "email" ∧
    jsGet (generalizeRecord fields) "phone" = jsGet fields "phone" ∧
    jsGet (generalizeRecord fields) "location"
      = (jsGet fields "location").map generalizeLocation ∧
    generalizeSensitiveFields [JSData.obj fields] = [JSData.obj (generalizeRecord fields)] ∧
    generalizeAge (JSVal.num 45) = JSVal.str "middle-aged" ∧
    generalizeAge (JSVal.num 70) = JSVal.str "elderly" ∧
    jsGet (generalizeRecordDist c1Record) "age" = some (JSVal.str "middle-aged") ∧
    jsGet (generalizeRecordDist c1Record) "income" = some (JSVal.str "high") ∧
    jsGet (generalizeRecordDist c1Record) "email" = some (JSVal.str "alice@example.com") ∧
    jsGet (generalizeRecordDist c1Record) "phone" = some (JSVal.str "(555) 010-4477") := by
  refine ⟨?_, ?_, ?_, ?_, ?_, rfl, by decide, by decide, by decide, by decide, by decide, by decide⟩
  · rw [generalizeRecord_jsGet]; simp
  · rw [generalizeRecord_jsGet]; simp
  · rw [generalizeRecord_jsGet]; simp
  · rw [generalizeRecord_jsGet]; simp
  · rw [generalizeRecord_jsGet]; simp

/-! ## Claims C2 and C3: privacy budget -/

/-- One `learnWithPrivacy` call never decreases the used budget, never pushes
it past the total, and never changes the total. -/
theorem learnWithPrivacy_budget_step (noise : ℕ → ℚ → ℚ) (st : LearnerState)
    (d : List JSData) (eps : ℚ) (heps : 0 ≤ eps) (hlo : 0 ≤ st.usedBudget)
    (hhi : st.usedBudget ≤ st.privacyBudget) :
    st.usedBudget ≤ (learnWithPrivacy noise st d eps).fst.usedBudget ∧
    (learnWithPrivacy noise st d eps).fst.usedBudget ≤ st.privacyBudget ∧
    (learnWithPrivacy noise st d eps).fst.privacyBudget = st.privacyBudget := by
  unfold learnWithPrivacy
  split_ifs with h1 h2
  · exact ⟨le_refl _, hhi, rfl⟩
  · refine ⟨?_, ?_, rfl⟩
    · show st.usedBudget ≤ st.usedBudget + (st.privacyBudget - st.usedBudget)
      linarith
    · show st.usedBudget + (st.privacyBudget - st.usedBudget) ≤ st.privacyBudget
      linarith
  · push_neg at h1
    refine ⟨?_, ?_, rfl⟩
    · show st.usedBudget ≤ st.usedBudget + eps
      linarith
    · show st.usedBudget + eps ≤ st.privacyBudget
      linarith

/-- The budget invariant holds after any sequence of calls. -/
theorem runLearns_budget (noise : ℕ → ℚ → ℚ) (calls : List (List JSData × ℚ))
    (st : LearnerState) (hcalls : ∀ c ∈ calls, 0 ≤ c.snd) (hlo : 0 ≤ st.usedBudget)
    (hhi : st.usedBudget ≤ st.privacyBudget) :
    st.usedBudget ≤ (runLearns noise calls st).usedBudget ∧
    (runLearns noise calls st).usedBudget ≤ st.privacyBudget ∧
    (runLearns noise calls st).privacyBudget = st.privacyBudget := by
  induction calls generalizing st with
  | nil => exact ⟨le_refl _, hhi, rfl⟩
  | cons c rest ih =>
    have hc : 0 ≤ c.snd := hcalls c (List.mem_cons_self c rest)
    have hstep := learnWithPrivacy_budget_step noise st c.fst c.snd hc hlo hhi
    have hrest := ih ((learnWithPrivacy noise st c.fst c.snd).fst)
      (fun x hx => hcalls x (List.mem_cons_of_mem c hx))
      (le_trans hlo hstep.1) (hstep.2.2 ▸ hstep.2.1)
    unfold runLearns at hrest ⊢
    simp only [List.foldl_cons]
    exact ⟨le_trans hstep.1 hrest.1, hstep.2.2 ▸ hrest.2.1, hstep.2.2 ▸ hrest.2.2⟩

/-- Claim C2: over any sequence of `learnWithPrivacy` calls with non-negative
requested budgets, `getRemainingBudget()` stays non-negative, never exceeds
the total `privacyBudget`, is non-increasing from call to call, and
`resetPrivacyBudget()` restores it to the total. -/
theorem claim_C2 (noise : ℕ → ℚ → ℚ) (calls : List (List JSData × ℚ))
    (hcalls : ∀ c ∈ calls, 0 ≤ c.snd) (d : List JSData) (eps : ℚ) (heps : 0 ≤ eps) :
    0 ≤ getRemainingBudget (runLearns noise calls initLearner) ∧
    getRemainingBudget (runLearns noise calls initLearner) ≤ initLearner.privacyBudget ∧
    getRemainingBudget (runLearns noise (calls ++ [(d, eps)]) initLearner)
      ≤ getRemainingBudget (runLearns noise calls initLearner) ∧
    getRemainingBudget (resetPrivacyBudget (runLearns noise calls initLearner))
      = initLearner.privacyBudget := by
  have hrun := runLearns_budget noise calls initLearner hcalls (le_refl 0)
    (by norm_num [initLearner])
  have happ : runLearns noise (calls ++ [(d, eps)]) initLearner
      = (learnWithPrivacy noise (runLearns noise calls initLearner) d eps).fst := by
    unfold runLearns
    rw [List.foldl_append]
    rfl
  have hstep := learnWithPrivacy_budget_step noise (runLearns noise calls initLearner)
    d eps heps (le_trans (le_refl 0) hrun.1) (by rw [hrun.2.2]; exact hrun.2.1)
  constructor
  · unfold getRemainingBudget
    have := hrun.2.1
    have := hrun.2.2
    simp only [initLearner] at *
    linarith
  constructor
  · unfold getRemainingBudget
    have h0 : (0 : ℚ) ≤ (runLearns noise calls initLearner).usedBudget := hrun.1
    have := hrun.2.2
    simp only [initLearner] at *
    linarith
  constructor
  · rw [happ]
    unfold getRemainingBudget
    have h1 := hstep.1
    have h2 := hstep.2.2
    rw [h2]
    linarith
  · unfold getRemainingBudget resetPrivacyBudget
    simp [hrun.2.2]

/-- Witness for claim C2 at a concrete call sequence. -/
theorem claim_C2_witness :
    0 ≤ getRemainingBudget (runLearns (fun _ _ => 0)
        [([JSData.prim (JSVal.num 3)], 1)] initLearner) ∧
    getRemainingBudget (runLearns (fun _ _ => 0)
        [([JSData.prim (JSVal.num 3)], 1)] initLearner) ≤ initLearner.privacyBudget ∧
    getRemainingBudget (runLearns (fun _ _ => 0)
        ([([JSData.prim (JSVal.num 3)], 1)] ++ [([], 1)]) initLearner)
      ≤ getRemainingBudget (runLearns (fun _ _ => 0)
        [([JSData.prim (JSVal.num 3)], 1)] initLearner) ∧
    getRemainingBudget (resetPrivacyBudget (runLearns (fun _ _ => 0)
        [([JSData.prim (JSVal.num 3)], 1)] initLearner)) = initLearner.privacyBudget :=
  claim_C2 (fun _ _ => 0) [([JSData.prim (JSVal.num 3)], 1)]
    (by intro c hc; simp at hc; subst hc; norm_num) [] 1 (by norm_num)

/-- Claim C3: when the budget is exhausted (`used + requested > total` and
`total - used ≤ 0`), `learnWithPrivacy` returns the raw data unchanged —
no noise, no generalization — and leaves the used-budget counter unchanged. -/
theorem claim_C3 (noise : ℕ → ℚ → ℚ) (st : LearnerState) (rawData : List JSData)
    (eps : ℚ) (h1 : st.usedBudget + eps > st.privacyBudget)
    (h2 : st.privacyBudget - st.usedBudget ≤ 0) :
    learnWithPrivacy noise st rawData eps = (st, rawData) := by
  unfold learnWithPrivacy
  rw [if_pos h1, if_pos h2]

/-- Witness for claim C3 at a concrete exhausted state. -/
theorem claim_C3_witness :
    learnWithPrivacy (fun _ _ => 0) { privacyBudget := 1, usedBudget := 1 }
        [JSData.obj [("age", JSVal.num 45)]] 1
      = ({ privacyBudget := 1, usedBudget := 1 }, [JSData.obj [("age", JSVal.num 45)]]) :=
  claim_C3 (fun _ _ => 0) { privacyBudget := 1, usedBudget := 1 }
    [JSData.obj [("age", JSVal.num 45)]] 1 (by norm_num) (by norm_num)

/-! ## RealTimePredictionEngine (src/RealTimePredictionEngine.js) -/

/-- A prediction result `{value, confidence, alternatives, source}`
(`value` is `null` or a string). -/
structure Prediction where
  value : Option String
  confidence : ℚ
  alternatives : List String
  source : String
deriving DecidableEq

/-- One stored training example `{value, timestamp}`. -/
structure TrainingItem where
  value : JSVal
  timestamp : ℤ
deriving DecidableEq

/-- The engine state: the bounded prediction cache (a `Map`, modelled as an
insertion-ordered association list) and the per-field training data. -/
structure EngineState where
  predictionCache : List (String × Prediction)
  trainingData : List (String × List TrainingItem)
deriving DecidableEq

/-- The constructor's `cacheSizeLimit = 100`. -/
def cacheSizeLimit : ℕ := 100

/-- The field element as the engine reads it: its `name` and current `value`. -/
structure FieldInput where
  name : String
  value : String
deriving DecidableEq

/-- `_setCache(key, value)`: when the cache has reached `cacheSizeLimit`,
delete the first (earliest-inserted) entry, then `Map.set` the new pair
(an existing key is updated in place, a new key is appended). -/
def setCache (cache : List (String × Prediction)) (key : String) (v : Prediction) :
    List (String × Prediction) :=
  let cache1 := if cacheSizeLimit ≤ cache.length then cache.tail else cache
  jsSet cache1 key v

/-- Bump an insertion-ordered counter object:
`counts[k] = (counts[k] || 0) + 1`. -/
def bumpCount (counts : List (String × ℕ)) (k : String) : List (String × ℕ) :=
  if counts.any (fun kv => kv.fst == k) then
    counts.map (fun kv => if kv.fst == k then (kv.fst, kv.snd + 1) else kv)
  else counts ++ [(k, 1)]

/-- The most-frequent scan over `Object.entries` of a counter object:
`maxCount = 0; mostFrequent = ''; strictly-greater wins`, so ties keep the
earliest-inserted key. -/
def scanEntriesMax (counts : List (String × ℕ)) : String × ℕ :=
  counts.foldl (fun acc kv => if kv.snd > acc.snd then (kv.fst, kv.snd) else acc) ("", 0)

/-- `_getGenericPrediction`: fixed predictions keyed on the field name
(`includes` checks, in source order), with a null/zero default. -/
def getGenericPrediction (field : FieldInput) : Prediction :=
  if jsIncludes field.name "email" then
    { value := some "user@example.com", confidence := 3/10,
      alternatives := ["user@example.com", "person@gmail.com"], source := "generic" }
  else if jsIncludes field.name "phone" then
    { value := some "(555) 123-4567", confidence := 3/10,
      alternatives := ["(555) 123-4567", "(555) 987-6543"], source := "generic" }
  else if jsIncludes field.name "fullName" then
    { value := some "John Doe", confidence := 2/10,
      alternatives := ["John Doe", "Jane Smith", "Michael Johnson"], source := "generic" }
  else
    { value := none, confidence := 0, alternatives := [], source := "generic" }

/-- The frequency table of a list of (stringified) values, in
first-occurrence insertion order. -/
def valueCountsOf (values : List String) : List (String × ℕ) :=
  values.foldl bumpCount []

/-- `_predictFromTrainingData`: generic fallback when the field has no stored
examples; otherwise prefix-matching on a non-empty partial value, falling back
to the overall most frequent stored value. -/
def predictFromTrainingData (field : FieldInput) (e : EngineState) : Prediction :=
  match jsGet e.trainingData field.name with
  | none => getGenericPrediction field
  | some items =>
    if items.length = 0 then getGenericPrediction field
    else
      let fromMatches : List TrainingItem → Option Prediction := fun ms =>
        if ms.length > 0 then
          let counts := valueCountsOf (ms.map (fun it => jsValToString it.value))
          let best := scanEntriesMax counts
          some { value := some best.fst,
                 confidence := min (95/100) ((best.snd : ℚ) / (ms.length : ℚ)),
                 alternatives := (counts.map Prod.fst).take 5,
                 source := "training-data" }
        else none
      let prefixStep : Option Prediction :=
        if !(field.value == "") then
          fromMatches (items.filter (fun it =>
            jsTruthy it.value &&
            jsStartsWith (jsToLower (jsValToString it.value)) (jsToLower field.value)))
        else none
      match prefixStep with
      | some p => p
      | none =>
        let counts := valueCountsOf (items.map (fun it => jsValToString it.value))
        let best := scanEntriesMax counts
        { value := some best.fst,
          confidence := min (9/10) ((best.snd : ℚ) / (items.length : ℚ)),
          alternatives := (counts.map Prod.fst).take 5,
          source := "training-data" }

/-- `generateCacheKey(field, context)`: the serialized context is abstracted
as the string `ctx` (the code uses `JSON.stringify(context)`). -/
def generateCacheKey (field : Option FieldInput) (ctx : String) : String :=
  match field with
  | none => "unknown"
  | some f => f.name ++ "-" ++ ctx

/-- `predictFieldValue(field, context)`: null-field guard, cache lookup,
prediction from training data, cache store. -/
def predictFieldValue (field : Option FieldInput) (ctx : String) (e : EngineState) :
    Prediction × EngineState :=
  match field with
  | none => ({ value := none, confidence := 0, alternatives := [], source := "unknown" }, e)
  | some f =>
    let cacheKey := generateCacheKey (some f) ctx
    match jsGet e.predictionCache cacheKey with
    | some p => (p, e)
    | none =>
      let p := predictFromTrainingData f e
      (p, { e with predictionCache := setCache e.predictionCache cacheKey p })

/-! ## Claim C4: bounded cache with insertion-order eviction -/

theorem jsSet_length_le {α : Type} (l : List (String × α)) (k : String) (v : α) :
    (jsSet l k v).length ≤ l.length + 1 := by
  unfold jsSet
  split_ifs <;> simp

theorem any_key_eq_false {α : Type} (l : List (String × α)) (k : String)
    (hk : k ∉ l.map Prod.fst) : (l.any fun kv => kv.fst == k) = false := by
  rw [List.any_eq_false]
  intro x hx
  simp only [beq_iff_eq]
  intro hEq
  exact hk (List.mem_map.mpr ⟨x, hx, hEq⟩)

theorem jsSet_of_not_mem {α : Type} (l : List (String × α)) (k : String) (v : α)
    (hk : k ∉ l.map Prod.fst) : jsSet l k v = l ++ [(k, v)] := by
  unfold jsSet
  rw [any_key_eq_false l k hk]
  simp

/-- `_setCache` keeps the cache within the size limit. -/
theorem setCache_length (cache : List (String × Prediction)) (k : String) (v : Prediction)
    (h : cache.length ≤ cacheSizeLimit) : (setCache cache k v).length ≤ cacheSizeLimit := by
  unfold setCache
  split_ifs with h1
  · show (jsSet cache.tail k v).length ≤ cacheSizeLimit
    have h2 := jsSet_length_le cache.tail k v
    have h3 : cache.tail.length = cache.length - 1 := by
      cases cache <;> simp
    unfold cacheSizeLimit at *
    omega
  · show (jsSet cache k v).length ≤ cacheSizeLimit
    have h2 := jsSet_length_le cache k v
    unfold cacheSizeLimit at *
    omega

/-- Claim C4: from an empty cache, any sequence of `_setCache` calls keeps at
most `cacheSizeLimit` entries; a `_setCache` of a fresh key on a full cache
evicts exactly the earliest-inserted entry (the head of the insertion order)
before appending the new pair; and a cache read (`predictFieldValue` on a
cache hit) returns the engine state unchanged, so reads never affect which
entry is evicted next. -/
theorem claim_C4 (ops : List (String × Prediction)) (c : List (String × Prediction))
    (k : String) (v : Prediction) (e : EngineState) (f : FieldInput) (ctx : String)
    (p : Prediction) (hc : c.length = cacheSizeLimit) (hk : k ∉ c.map Prod.fst)
    (hhit : jsGet e.predictionCache (generateCacheKey (some f) ctx) = some p) :
    (ops.foldl (fun m kv => setCache m kv.fst kv.snd) []).length ≤ cacheSizeLimit ∧
    setCache c k v = c.tail ++ [(k, v)] ∧
    predictFieldValue (some f) ctx e = (p, e) := by
  refine ⟨?_, ?_, ?_⟩
  · have inv : ∀ (os : List (String × Prediction)) (m : List (String × Prediction)),
        m.length ≤ cacheSizeLimit →
        (os.foldl (fun m kv => setCache m kv.fst kv.snd) m).length ≤ cacheSizeLimit := by
      intro os
      induction os with
      | nil => intro m hm; exact hm
      | cons o os ih =>
        intro m hm
        exact ih (setCache m o.fst o.snd) (setCache_length m o.fst o.snd hm)
    exact inv ops [] (by simp)
  · unfold setCache
    rw [if_pos (le_of_eq hc.symm)]
    apply jsSet_of_not_mem
    intro hmem
    exact hk ((List.map_subset Prod.fst (List.tail_sublist c).subset) hmem)
  · simp [predictFieldValue, hhit]

/-- Witness for claim C4: a full 100-entry cache and a concrete cache hit. -/
theorem claim_C4_witness :
    (([] : List (String × Prediction)).foldl
        (fun m kv => setCache m kv.fst kv.snd) []).length ≤ cacheSizeLimit ∧
    setCache (List.replicate 100 ("a", Prediction.mk none 0 [] "generic")) "b"
        (Prediction.mk none 0 [] "generic")
      = (List.replicate 100 ("a", Prediction.mk none 0 [] "generic")).tail
          ++ [("b", Prediction.mk none 0 [] "generic")] ∧
    predictFieldValue (some { name := "city", value := "" }) "x"
        { predictionCache := [("city-x", Prediction.mk none 0 [] "generic")],
          trainingData := [] }
      = (Prediction.mk none 0 [] "generic",
         { predictionCache := [("city-x", Prediction.mk none 0 [] "generic")],
           trainingData := [] }) :=
  claim_C4 [] (List.replicate 100 ("a", Prediction.mk none 0 [] "generic")) "b"
    (Prediction.mk none 0 [] "generic")
    { predictionCache := [("city-x", Prediction.mk none 0 [] "generic")],
      trainingData := [] }
    { name := "city", value := "" } "x" (Prediction.mk none 0 [] "generic")
    (by simp [cacheSizeLimit])
    (by simp [List.map_replicate, List.mem_replicate])
    (by decide)

/-! ## Claim C5: fallback prediction for fields with no training data -/

/-- Claim C5, as stated, is false: for a field named "city" with no stored
training examples, the generic fallback has confidence `0`, which is not in
the claimed range `0.2`–`0.3` (the source's default branch returns
`{value: null, confidence: 0, source: 'generic'}`). -/
theorem claim_C5_counterexample :
    predictFromTrainingData { name := "city", value := "" }
      { predictionCache := [], trainingData := [] }
      = { value := none, confidence := 0, alternatives := [], source := "generic" } ∧
    ¬((2/10 : ℚ) ≤ (predictFromTrainingData { name := "city", value := "" }
        { predictionCache := [], trainingData := [] }).confidence) := by
  have h1 : predictFromTrainingData { name := "city", value := "" }
      { predictionCache := [], trainingData := [] }
      = { value := none, confidence := 0, alternatives := [], source := "generic" } := by
    decide
  refine ⟨h1, ?_⟩
  rw [h1]
  norm_num

/-- Claim C5 (amended): for a field with no stored training examples,
`_predictFromTrainingData` returns `_getGenericPrediction` (it never throws:
the embedding is a total function), whose `source` is always `"generic"`.
Its confidence is the fixed `0.3` (name containing "email" or "phone") or
`0.2` (name containing "fullName"), i.e. within `0.2`–`0.3`, for those names
only; for every other field name the fallback is `{value: null,
confidence: 0}`, not a confidence in `0.2`–`0.3`. -/
theorem claim_C5 (e : EngineState) (f : FieldInput)
    (h : jsGet e.trainingData f.name = none ∨ jsGet e.trainingData f.name = some []) :
    predictFromTrainingData f e = getGenericPrediction f ∧
    (getGenericPrediction f).source = "generic" ∧
    ((jsIncludes f.name "email" || jsIncludes f.name "phone"
        || jsIncludes f.name "fullName") = true →
      (2/10 : ℚ) ≤ (getGenericPrediction f).confidence ∧
      (getGenericPrediction f).confidence ≤ 3/10) ∧
    ((jsIncludes f.name "email" || jsIncludes f.name "phone"
        || jsIncludes f.name "fullName") = false →
      (getGenericPrediction f).confidence = 0 ∧ (getGenericPrediction f).value = none) := by
  refine ⟨?_, ?_, ?_, ?_⟩
  · unfold predictFromTrainingData
    rcases h with h | h <;> rw [h]
    simp
  · unfold getGenericPrediction
    split_ifs <;> rfl
  · intro hname
    unfold getGenericPrediction
    split_ifs with hE hP hF
    · exact ⟨by norm_num, by norm_num⟩
    · exact ⟨by norm_num, by norm_num⟩
    · exact ⟨by norm_num, by norm_num⟩
    · simp [hE, hP, hF] at hname
  · intro hname
    unfold getGenericPrediction
    split_ifs with hE hP hF
    · simp [hE] at hname
    · simp [hP] at hname
    · simp [hF] at hname
    · exact ⟨rfl, rfl⟩

/-- Witness for claim C5 at the field name "city" with empty training data. -/
theorem claim_C5_witness :
    predictFromTrainingData { name := "city", value := "" }
        { predictionCache := [], trainingData := [("city", [])] }
      = getGenericPrediction { name := "city", value := "" } ∧
    (getGenericPrediction { name := "city", value := "" }).source = "generic" ∧
    ((jsIncludes "city" "email" || jsIncludes "city" "phone"
        || jsIncludes "city" "fullName") = true →
      (2/10 : ℚ) ≤ (getGenericPrediction { name := "city", value := "" }).confidence ∧
      (getGenericPrediction { name := "city", value := "" }).confidence ≤ 3/10) ∧
    ((jsIncludes "city" "email" || jsIncludes "city" "phone"
        || jsIncludes "city" "fullName") = false →
      (getGenericPrediction { name := "city", value := "" }).confidence = 0 ∧
      (getGenericPrediction { name := "city", value := "" }).value = none) :=
  claim_C5 { predictionCache := [], trainingData := [("city", [])] }
    { name := "city", value := "" } (Or.inr (by decide))

/-! ## FieldPredictionModel Markov chain (src/FieldPredictionModel.js) -/

/-- `transitions[current][next] = (transitions[current][next] || 0) + 1`,
creating `transitions[current] = {}` first when absent. -/
def addTransition (t : List (String × List (String × ℕ))) (cur next : String) :
    List (String × List (String × ℕ)) :=
  let t1 := if (jsGet t cur).isSome then t else t ++ [(cur, [])]
  t1.map (fun kv => if kv.fst == cur then (kv.fst, bumpCount kv.snd next) else kv)

/-- The consecutive pairs of a word list (the source's
`for (i = 0; i < parts.length - 1; i++)` loop). -/
def chainPairs : List String → List (String × String)
  | a :: b :: rest => (a, b) :: chainPairs (b :: rest)
  | _ => []

/-- The Markov model `{transitions, starters}` built by `buildMarkovChain`. -/
structure MarkovChain where
  transitions : List (String × List (String × ℕ))
  starters : List (String × ℕ)
deriving DecidableEq

/-- `buildMarkovChain(labels)`: for each label, split on `/\s+/`, count the
starter word, and count every consecutive word transition. -/
def buildMarkovChain (labels : List String) : MarkovChain :=
  labels.foldl (fun ch label =>
    let parts := jsSplitWs label
    let starters1 :=
      match parts with
      | [] => ch.starters
      | p0 :: _ => bumpCount ch.starters p0
    let transitions1 :=
      (chainPairs parts).foldl (fun t pq => addTransition t pq.fst pq.snd) ch.transitions
    { transitions := transitions1, starters := starters1 })
    { transitions := [], starters := [] }

/-- The most-frequent scan of `predictWithMarkovChain`: iterate the successor
keys, looking each count up in the successor object, strict `>` wins
(so ties keep the earliest-inserted key, and the scan starts from
`maxCount = 0`, `mostCommon = ''`). -/
def scanKeysMax (succs : List (String × ℕ)) (keys : List String) : String × ℕ :=
  keys.foldl (fun acc w =>
    let count := (jsGet succs w).getD 0
    if count > acc.snd then (w, count) else acc) ("", 0)

/-- `predictWithMarkovChain(partialInput, transitions, starters)`.  The empty
(falsy) partial input picks a random starter; the random index of
`Math.floor(Math.random() * length)` is abstracted as `randIndex` reduced
modulo the number of starters. -/
def predictWithMarkovChain (randIndex : ℕ) (partialInput : String)
    (transitions : List (String × List (String × ℕ)))
    (starters : List (String × ℕ)) : String :=
  if partialInput == "" then
    let starterWords := starters.map Prod.fst
    if starterWords.length > 0 then
      starterWords.getD (randIndex % starterWords.length) ""
    else ""
  else
    let words := jsSplitWs partialInput
    let lastWord := words.getLastD ""
    match jsGet transitions lastWord with
    | none => ""
    | some succs =>
      let nextWords := succs.map Prod.fst
      if nextWords.length > 0 then (scanKeysMax succs nextWords).fst
      else ""

/-! ## Claim C6: Markov-chain prediction -/

theorem jsGet_eq_some_mem {α : Type} (l : List (String × α)) (k : String) (v : α)
    (h : jsGet l k = some v) : (k, v) ∈ l := by
  unfold jsGet at h
  rcases Option.map_eq_some'.mp h with ⟨kv, hfind, hsnd⟩
  have hmem := List.mem_of_find?_eq_some hfind
  have hkey : kv.fst = k := by
    have := List.find?_some hfind
    simpa using this
  have : kv = (k, v) := by
    cases kv
    simp only at hkey hsnd
    rw [hkey, hsnd]
  rw [← this]
  exact hmem

theorem bumpCount_pos (counts : List (String × ℕ)) (k : String)
    (h : ∀ wc ∈ counts, 1 ≤ wc.snd) : ∀ wc ∈ bumpCount counts k, 1 ≤ wc.snd := by
  intro wc hwc
  unfold bumpCount at hwc
  split_ifs at hwc with hany
  · rcases List.mem_map.mp hwc with ⟨orig, horig, heq⟩
    by_cases hk : (orig.fst == k) = true
    · rw [if_pos hk] at heq
      rw [← heq]
      simp
    · rw [if_neg hk] at heq
      rw [← heq]
      exact h orig horig
  · rcases List.mem_append.mp hwc with h1 | h1
    · exact h wc h1
    · simp at h1
      rw [h1]
  
theorem addTransition_pos (t : List (String × List (String × ℕ))) (cur next : String)
    (h : ∀ kv ∈ t, ∀ wc ∈ kv.snd, 1 ≤ wc.snd) :
    ∀ kv ∈ addTransition t cur next, ∀ wc ∈ kv.snd, 1 ≤ wc.snd := by
  intro kv hkv
  unfold addTransition at hkv
  rcases List.mem_map.mp hkv with ⟨orig, horig, heq⟩
  have horigpos : ∀ wc ∈ orig.snd, 1 ≤ wc.snd := by
    by_cases hcur : (jsGet t cur).isSome
    · rw [if_pos hcur] at horig
      exact h orig horig
    · rw [if_neg hcur] at horig
      rcases List.mem_append.mp horig with h1 | h1
      · exact h orig h1
      · simp at h1
        intro wc hwc
        rw [h1] at hwc
        simp at hwc
  by_cases hk : (orig.fst == cur) = true
  · rw [if_pos hk] at heq
    rw [← heq]
    exact bumpCount_pos orig.snd next horigpos
  · rw [if_neg hk] at heq
    rw [← heq]
    exact horigpos

theorem foldPairs_pos (pairs : List (String × String)) :
    ∀ t : List (String × List (String × ℕ)),
    (∀ kv ∈ t, ∀ wc ∈ kv.snd, 1 ≤ wc.snd) →
    ∀ kv ∈ pairs.foldl (fun t pq => addTransition t pq.fst pq.snd) t,
      ∀ wc ∈ kv.snd, 1 ≤ wc.snd := by
  induction pairs with
  | nil => intro t ht; exact ht
  | cons pq rest ih =>
    intro t ht
    simp only [List.foldl_cons]
    exact ih (addTransition t pq.fst pq.snd) (addTransition_pos t pq.fst pq.snd ht)

/-- Every transition count in a built Markov chain is at least 1. -/
theorem buildMarkovChain_pos (labels : List String) :
    ∀ kv ∈ (buildMarkovChain labels).transitions, ∀ wc ∈ kv.snd, 1 ≤ wc.snd := by
  have general : ∀ (ls : List String) (ch : MarkovChain),
      (∀ kv ∈ ch.transitions, ∀ wc ∈ kv.snd, 1 ≤ wc.snd) →
      ∀ kv ∈ (ls.foldl (fun ch label =>
          let parts := jsSplitWs label
          let starters1 :=
            match parts with
            | [] => ch.starters
            | p0 :: _ => bumpCount ch.starters p0
          let transitions1 :=
            (chainPairs parts).foldl (fun t pq => addTransition t pq.fst pq.snd) ch.transitions
          { transitions := transitions1, starters := starters1 }) ch).transitions,
        ∀ wc ∈ kv.snd, 1 ≤ wc.snd := by
    intro ls
    induction ls with
    | nil => intro ch hch; exact hch
    | cons label rest ih =>
      intro ch hch
      simp only [List.foldl_cons]
      apply ih
      exact foldPairs_pos (chainPairs (jsSplitWs label)) ch.transitions hch
  exact general labels { transitions := [], starters := [] } (by simp)

/-- The body of the most-frequent scan, with the successor table fixed. -/
def scanStep (succs : List (String × ℕ)) (acc : String × ℕ) (w : String) : String × ℕ :=
  if (jsGet succs w).getD 0 > acc.snd then (w, (jsGet succs w).getD 0) else acc

theorem scanKeysMax_eq_foldl (succs : List (String × ℕ)) (keys : List String) :
    scanKeysMax succs keys = keys.foldl (scanStep succs) ("", 0) := rfl

/-- The scan visits every key, never lowers the running maximum, and ends
either at its start accumulator or at a visited key achieving its own count. -/
theorem scanFold_spec (succs : List (String × ℕ)) (keys : List String) :
    ∀ acc : String × ℕ,
    (∀ w ∈ keys, (jsGet succs w).getD 0 ≤ (keys.foldl (scanStep succs) acc).snd) ∧
    acc.snd ≤ (keys.foldl (scanStep succs) acc).snd ∧
    ((keys.foldl (scanStep succs) acc) = acc ∨
      ((keys.foldl (scanStep succs) acc).fst ∈ keys ∧
       (jsGet succs (keys.foldl (scanStep succs) acc).fst).getD 0
         = (keys.foldl (scanStep succs) acc).snd)) := by
  induction keys with
  | nil => intro acc; exact ⟨by simp, le_refl _, Or.inl rfl⟩
  | cons w ws ih =>
    intro acc
    simp only [List.foldl_cons]
    obtain ⟨h1, h2, h3⟩ := ih (scanStep succs acc w)
    have hstep2 : acc.snd ≤ (scanStep succs acc w).snd := by
      unfold scanStep
      split_ifs with hgt
      · exact le_of_lt hgt
      · exact le_refl _
    refine ⟨?_, le_trans hstep2 h2, ?_⟩
    · intro x hx
      rcases List.mem_cons.mp hx with rfl | hx'
      · by_cases hgt : (jsGet succs x).getD 0 > acc.snd
        · have hs : (scanStep succs acc x).snd = (jsGet succs x).getD 0 := by
            unfold scanStep
            rw [if_pos hgt]
          rw [← hs]
          exact h2
        · have hle : (jsGet succs x).getD 0 ≤ acc.snd := le_of_not_lt hgt
          exact le_trans hle (le_trans hstep2 h2)
      · exact h1 x hx'
    · rcases h3 with heq | hmem
      · by_cases hgt : (jsGet succs w).getD 0 > acc.snd
        · right
          have hs : scanStep succs acc w = (w, (jsGet succs w).getD 0) := by
            unfold scanStep
            rw [if_pos hgt]
          rw [heq, hs]
          exact ⟨List.mem_cons_self w ws, rfl⟩
        · left
          have hs : scanStep succs acc w = acc := by
            unfold scanStep
            rw [if_neg hgt]
          rw [heq, hs]
      · right
        exact ⟨List.mem_cons_of_mem w hmem.1, hmem.2⟩

theorem predictWithMarkovChain_of_none (rIdx : ℕ) (partialInput : String)
    (transitions : List (String × List (String × ℕ))) (starters : List (String × ℕ))
    (h : partialInput ≠ "")
    (hnone : jsGet transitions ((jsSplitWs partialInput).getLastD "") = none) :
    predictWithMarkovChain rIdx partialInput transitions starters = "" := by
  unfold predictWithMarkovChain
  rw [if_neg (by simp [h])]
  show (match jsGet transitions ((jsSplitWs partialInput).getLastD "") with
        | none => ""
        | some succs =>
          if (succs.map Prod.fst).length > 0 then (scanKeysMax succs (succs.map Prod.fst)).fst
          else "") = ""
  rw [hnone]

theorem predictWithMarkovChain_of_some (rIdx : ℕ) (partialInput : String)
    (transitions : List (String × List (String × ℕ))) (starters : List (String × ℕ))
    (succs : List (String × ℕ)) (h : partialInput ≠ "")
    (hsucc : jsGet transitions ((jsSplitWs partialInput).getLastD "") = some succs) :
    predictWithMarkovChain rIdx partialInput transitions starters
      = if (succs.map Prod.fst).length > 0 then (scanKeysMax succs (succs.map Prod.fst)).fst
        else "" := by
  unfold predictWithMarkovChain
  rw [if_neg (by simp [h])]
  show (match jsGet transitions ((jsSplitWs partialInput).getLastD "") with
        | none => ""
        | some succs =>
          if (succs.map Prod.fst).length > 0 then (scanKeysMax succs (succs.map Prod.fst)).fst
          else "")
      = if (succs.map Prod.fst).length > 0 then (scanKeysMax succs (succs.map Prod.fst)).fst
        else ""
  rw [hsucc]

/-- Claim C6: with a non-empty partial input, prediction on a built Markov
chain splits on whitespace, takes the last word, and returns a successor of
that word whose transition count is maximal (the empty string when the last
word is not a transition source); concretely, labels
["go north", "go south", "go north"] with partial input "go" yield "north". -/
theorem claim_C6 (labels : List String) (partialInput : String) (rIdx : ℕ)
    (h : partialInput ≠ "") :
    (jsGet (buildMarkovChain labels).transitions ((jsSplitWs partialInput).getLastD "")
        = none →
      predictWithMarkovChain rIdx partialInput (buildMarkovChain labels).transitions
        (buildMarkovChain labels).starters = "") ∧
    (∀ succs, jsGet (buildMarkovChain labels).transitions
        ((jsSplitWs partialInput).getLastD "") = some succs → succs ≠ [] →
      predictWithMarkovChain rIdx partialInput (buildMarkovChain labels).transitions
          (buildMarkovChain labels).starters ∈ succs.map Prod.fst ∧
      ∀ w ∈ succs.map Prod.fst,
        (jsGet succs w).getD 0
          ≤ (jsGet succs (predictWithMarkovChain rIdx partialInput
              (buildMarkovChain labels).transitions
              (buildMarkovChain labels).starters)).getD 0) ∧
    predictWithMarkovChain 0 "go"
        (buildMarkovChain ["go north", "go south", "go north"]).transitions
        (buildMarkovChain ["go north", "go south", "go north"]).starters = "north" := by
  refine ⟨?_, ?_, by decide⟩
  · intro hnone
    exact predictWithMarkovChain_of_none rIdx partialInput _ _ h hnone
  · intro succs hsucc hne
    rw [predictWithMarkovChain_of_some rIdx partialInput _ _ succs h hsucc]
    have hlen : (succs.map Prod.fst).length > 0 := by
      cases succs with
      | nil => exact absurd rfl hne
      | cons a l => simp
    rw [if_pos hlen]
    obtain ⟨h1, h2, h3⟩ := scanFold_spec succs (succs.map Prod.fst) ("", 0)
    rw [← scanKeysMax_eq_foldl] at h1 h2 h3
    have hpos := buildMarkovChain_pos labels
    have hmem := jsGet_eq_some_mem _ _ _ hsucc
    have hspos : ∀ wc ∈ succs, 1 ≤ wc.snd := fun wc hwc =>
      hpos (((jsSplitWs partialInput).getLastD ""), succs) hmem wc hwc
    obtain ⟨⟨w0, c0⟩, rest, rfl⟩ : ∃ wc rest, succs = wc :: rest := by
      cases succs with
      | nil => exact absurd rfl hne
      | cons a l => exact ⟨a, l, rfl⟩
    have hw0 : jsGet ((w0, c0) :: rest) w0 = some c0 := by
      rw [jsGet_cons]
      simp
    have hc0 : 1 ≤ c0 := hspos (w0, c0) (List.mem_cons_self _ _)
    rcases h3 with heq | hmax
    · exfalso
      have hlook := h1 w0 (by simp)
      rw [heq, hw0] at hlook
      simp at hlook
      omega
    · refine ⟨hmax.1, ?_⟩
      intro w hw
      rw [hmax.2]
      exact h1 w hw

/-- Witness for claim C6 at the concrete labels and partial input "go". -/
theorem claim_C6_witness :
    predictWithMarkovChain 0 "go"
        (buildMarkovChain ["go north", "go south", "go north"]).transitions
        (buildMarkovChain ["go north", "go south", "go north"]).starters = "north" :=
  (claim_C6 ["go north", "go south", "go north"] "go" 0 (by decide)).2.2

/-! ## SmartFormPredictor (src/SmartFormPredictor.js): patterns and suggestions -/

/-- ES `Set.prototype.add`: keep insertion order, ignore duplicates. -/
def setAdd (l : List String) (v : String) : List String :=
  if l.contains v then l else l ++ [v]

/-- One iteration of the `_updatePatterns` loop: ensure a `Set` exists for
the field (`if (!patterns.has(fieldName)) set(fieldName, new Set())`), then
add the submitted value to that set. -/
def updatePatternsStep (ps : List (String × List String)) (kv : String × String) :
    List (String × List String) :=
  (if (jsGet ps kv.fst).isSome then ps else ps ++ [(kv.fst, [])]).map
    (fun e => if e.fst == kv.fst then (e.fst, setAdd e.snd kv.snd) else e)

/-- `_updatePatterns(formData)`: run the loop body over the record's entries. -/
def updatePatterns (patterns : List (String × List String))
    (formData : List (String × String)) : List (String × List String) :=
  formData.foldl updatePatternsStep patterns

/-- `getSuggestions(field, partialValue)`: iterate the stored `Set` in
insertion order, push the values starting with the partial value, and
`slice(0, maxSuggestions)` (the configured default is 3). -/
def getSuggestions (patterns : List (String × List String)) (maxSuggestions : ℕ)
    (field partialValue : String) : List String :=
  let suggestions :=
    match jsGet patterns field with
    | none => []
    | some fieldPatterns =>
      fieldPatterns.foldl
        (fun acc p => if jsStartsWith p partialValue then acc ++ [p] else acc) []
  suggestions.take maxSuggestions

theorem foldl_push_filter (l : List String) (q : String → Bool) :
    ∀ acc : List String,
      l.foldl (fun acc p => if q p then acc ++ [p] else acc) acc = acc ++ l.filter q := by
  induction l with
  | nil => intro acc; simp
  | cons x xs ih =>
    intro acc
    simp only [List.foldl_cons]
    by_cases hx : q x
    · rw [if_pos hx, ih (acc ++ [x])]
      simp [List.filter_cons, hx]
    · rw [if_neg hx, ih acc]
      simp [List.filter_cons, hx]

/-- The loop of `getSuggestions` is prefix filtering in insertion order. -/
theorem getSuggestions_eq (patterns : List (String × List String)) (maxSuggestions : ℕ)
    (field partialValue : String) :
    getSuggestions patterns maxSuggestions field partialValue
      = (((jsGet patterns field).getD []).filter
          (fun p => jsStartsWith p partialValue)).take maxSuggestions := by
  unfold getSuggestions
  match hp : jsGet patterns field with
  | none => simp
  | some fieldPatterns =>
    simp only [Option.getD_some]
    rw [foldl_push_filter fieldPatterns (fun p => jsStartsWith p partialValue) []]
    simp

/-- Claim C7: `getSuggestions` returns exactly the stored values for the field
that start with the partial value, in the stored set's insertion order,
truncated to `maxSuggestions`; concretely, stored values
{"Boston","Bogota","Denver"} with partial "Bo" give ["Boston","Bogota"]. -/
theorem claim_C7 (patterns : List (String × List String)) (maxSuggestions : ℕ)
    (field partialValue : String) :
    getSuggestions patterns maxSuggestions field partialValue
      = (((jsGet patterns field).getD []).filter
          (fun p => jsStartsWith p partialValue)).take maxSuggestions ∧
    (getSuggestions patterns maxSuggestions field partialValue).length ≤ maxSuggestions ∧
    getSuggestions [("city", ["Boston", "Bogota", "Denver"])] 3 "city" "Bo"
      = ["Boston", "Bogota"] := by
  refine ⟨getSuggestions_eq patterns maxSuggestions field partialValue, ?_, by decide⟩
  rw [getSuggestions_eq]
  exact List.length_take_le maxSuggestions _

/-! ## Claim C10: the pattern store deduplicates -/

theorem jsGet_append_of_none {α : Type} (l1 l2 : List (String × α)) (k : String)
    (h : jsGet l1 k = none) : jsGet (l1 ++ l2) k = jsGet l2 k := by
  induction l1 with
  | nil => simp
  | cons hd tl ih =>
    rw [jsGet_cons] at h
    by_cases hk : hd.fst = k
    · rw [if_pos hk] at h
      exact absurd h (by simp)
    · rw [if_neg hk] at h
      rw [List.cons_append, jsGet_cons, if_neg hk]
      exact ih h

theorem setAdd_nodup (l : List String) (v : String) (h : l.Nodup) :
    (setAdd l v).Nodup := by
  unfold setAdd
  split_ifs with hc
  · exact h
  · have hv : v ∉ l := by
      intro hmem
      simp at hc
      exact hc hmem
    simp [List.nodup_append, h, hv]

theorem mem_setAdd_self (l : List String) (v : String) : v ∈ setAdd l v := by
  unfold setAdd
  split_ifs with hc
  · simpa using hc
  · simp

theorem mem_setAdd_of_mem (l : List String) (v x : String) (h : x ∈ l) :
    x ∈ setAdd l v := by
  unfold setAdd
  split_ifs with hc
  · exact h
  · exact List.mem_append_left _ h

/-- Every per-field stored set is duplicate-free. -/
def FieldsNodup (ps : List (String × List String)) : Prop :=
  ∀ e ∈ ps, e.snd.Nodup

theorem updatePatternsStep_nodup (ps : List (String × List String))
    (kv : String × String) (h : FieldsNodup ps) : FieldsNodup (updatePatternsStep ps kv) := by
  intro e he
  unfold updatePatternsStep at he
  rcases List.mem_map.mp he with ⟨orig, horig, heq⟩
  have horignd : orig.snd.Nodup := by
    by_cases hsome : (jsGet ps kv.fst).isSome
    · rw [if_pos hsome] at horig
      exact h orig horig
    · rw [if_neg hsome] at horig
      rcases List.mem_append.mp horig with h1 | h1
      · exact h orig h1
      · simp at h1
        rw [h1]
        simp
  by_cases hk : (orig.fst == kv.fst) = true
  · rw [if_pos hk] at heq
    rw [← heq]
    exact setAdd_nodup orig.snd kv.snd horignd
  · rw [if_neg hk] at heq
    rw [← heq]
    exact horignd

theorem updatePatterns_nodup (fd : List (String × String)) :
    ∀ ps : List (String × List String), FieldsNodup ps →
      FieldsNodup (updatePatterns ps fd) := by
  induction fd with
  | nil => intro ps h; exact h
  | cons kv rest ih =>
    intro ps h
    unfold updatePatterns at ih ⊢
    simp only [List.foldl_cons]
    exact ih (updatePatternsStep ps kv) (updatePatternsStep_nodup ps kv h)

theorem records_fold_nodup (records : List (List (String × String))) :
    FieldsNodup (records.foldl updatePatterns []) := by
  have general : ∀ (rs : List (List (String × String))) (ps : List (String × List String)),
      FieldsNodup ps → FieldsNodup (rs.foldl updatePatterns ps) := by
    intro rs
    induction rs with
    | nil => intro ps h; exact h
    | cons fd rest ih =>
      intro ps h
      simp only [List.foldl_cons]
      exact ih (updatePatterns ps fd) (updatePatterns_nodup fd ps h)
  exact general records [] (by intro e he; simp at he)

theorem lookup_nodup (ps : List (String × List String)) (f : String)
    (h : FieldsNodup ps) : ((jsGet ps f).getD []).Nodup := by
  match hp : jsGet ps f with
  | none => simp
  | some l =>
    have := jsGet_eq_some_mem ps f l hp
    simpa using h (f, l) this

theorem jsGet_append_single_ne {α : Type} (ps : List (String × α)) (k f : String)
    (v : α) (h : f ≠ k) : jsGet (ps ++ [(k, v)]) f = jsGet ps f := by
  induction ps with
  | nil =>
    rw [jsGet_nil, List.nil_append, jsGet_cons, jsGet_nil]
    rw [if_neg]
    intro hk
    exact h (by simpa using hk.symm)
  | cons hd tl ih =>
    rw [List.cons_append, jsGet_cons, jsGet_cons]
    by_cases hdk : hd.fst = f
    · rw [if_pos hdk, if_pos hdk]
    · rw [if_neg hdk, if_neg hdk]
      exact ih

/-- The step's effect on lookups: at the step's own key the set gains the
submitted value; at other keys the lookup is unchanged. -/
theorem updatePatternsStep_jsGet (ps : List (String × List String))
    (kv : String × String) (f : String) :
    jsGet (updatePatternsStep ps kv) f
      = if f = kv.fst then
          some (setAdd (((jsGet ps kv.fst).getD [])) kv.snd)
        else jsGet ps f := by
  unfold updatePatternsStep
  by_cases hsome : (jsGet ps kv.fst).isSome
  · rw [if_pos hsome]
    refine (jsGet_mapKey ps kv.fst f (fun l => setAdd l kv.snd)).trans ?_
    by_cases hf : f = kv.fst
    · rw [if_pos hf, if_pos hf, hf]
      match hp : jsGet ps kv.fst with
      | none => rw [hp] at hsome; simp at hsome
      | some l => simp
    · rw [if_neg hf, if_neg hf]
  · rw [if_neg hsome]
    have hnone : jsGet ps kv.fst = none := by
      match hp : jsGet ps kv.fst with
      | none => rfl
      | some l => rw [hp] at hsome; simp at hsome
    refine (jsGet_mapKey (ps ++ [(kv.fst, [])]) kv.fst f (fun l => setAdd l kv.snd)).trans ?_
    by_cases hf : f = kv.fst
    · rw [if_pos hf, if_pos hf, hf, jsGet_append_of_none ps _ _ hnone, hnone]
      rw [jsGet_cons]
      simp
    · rw [if_neg hf, if_neg hf]
      exact jsGet_append_single_ne ps kv.fst f [] hf

theorem mem_lookup_step_mono (ps : List (String × List String)) (kv : String × String)
    (f x : String) (h : x ∈ (jsGet ps f).getD []) :
    x ∈ (jsGet (updatePatternsStep ps kv) f).getD [] := by
  rw [updatePatternsStep_jsGet]
  by_cases hf : f = kv.fst
  · rw [if_pos hf]
    rw [hf] at h
    simpa using mem_setAdd_of_mem _ kv.snd x h
  · rw [if_neg hf]
    exact h

theorem mem_lookup_step_self (ps : List (String × List String)) (kv : String × String) :
    kv.snd ∈ (jsGet (updatePatternsStep ps kv) kv.fst).getD [] := by
  rw [updatePatternsStep_jsGet, if_pos rfl]
  simpa using mem_setAdd_self _ kv.snd

theorem mem_lookup_updatePatterns_mono (fd : List (String × String)) :
    ∀ (ps : List (String × List String)) (f x : String),
      x ∈ (jsGet ps f).getD [] → x ∈ (jsGet (updatePatterns ps fd) f).getD [] := by
  induction fd with
  | nil => intro ps f x h; exact h
  | cons kv rest ih =>
    intro ps f x h
    unfold updatePatterns at ih ⊢
    simp only [List.foldl_cons]
    exact ih (updatePatternsStep ps kv) f x (mem_lookup_step_mono ps kv f x h)

theorem mem_lookup_updatePatterns_of_mem (fd : List (String × String)) :
    ∀ (ps : List (String × List String)) (f v : String), (f, v) ∈ fd →
      v ∈ (jsGet (updatePatterns ps fd) f).getD [] := by
  induction fd with
  | nil => intro ps f v h; simp at h
  | cons kv rest ih =>
    intro ps f v hmem
    unfold updatePatterns at ih ⊢
    simp only [List.foldl_cons]
    rcases List.mem_cons.mp hmem with heq | hmem'
    · subst heq
      exact mem_lookup_updatePatterns_mono rest (updatePatternsStep ps (f, v)) f v
        (mem_lookup_step_self ps (f, v))
    · exact ih (updatePatternsStep ps kv) f v hmem'

theorem getSuggestions_nodup (ps : List (String × List String)) (maxS : ℕ)
    (f pv : String) (h : ((jsGet ps f).getD []).Nodup) :
    (getSuggestions ps maxS f pv).Nodup := by
  rw [getSuggestions_eq]
  exact List.Nodup.sublist (List.take_sublist _ _) (List.Nodup.filter _ h)

/-- Claim C10: the per-field pattern store is a `Set` — after any sequence of
learned records, every stored list is duplicate-free, `getSuggestions` never
returns the same value twice, and learning a record containing a (field,
value) pair leaves that value stored exactly once. -/
theorem claim_C10 (records : List (List (String × String))) (fd : List (String × String))
    (f partialValue : String) (maxS : ℕ) (v : String) (hmem : (f, v) ∈ fd) :
    ((jsGet (records.foldl updatePatterns []) f).getD []).Nodup ∧
    (getSuggestions (records.foldl updatePatterns []) maxS f partialValue).Nodup ∧
    List.count v ((jsGet (updatePatterns (records.foldl updatePatterns []) fd) f).getD [])
      = 1 := by
  have hnd := records_fold_nodup records
  have h1 := lookup_nodup _ f hnd
  refine ⟨h1, getSuggestions_nodup _ maxS f partialValue h1, ?_⟩
  have hnd2 : FieldsNodup (updatePatterns (records.foldl updatePatterns []) fd) :=
    updatePatterns_nodup fd _ hnd
  have h2 := lookup_nodup (updatePatterns (records.foldl updatePatterns []) fd) f hnd2
  have hv := mem_lookup_updatePatterns_of_mem fd (records.foldl updatePatterns []) f v hmem
  exact List.count_eq_one_of_mem h2 hv

/-- Witness for claim C10: learning ("city","Boston") twice stores it once. -/
theorem claim_C10_witness :
    ((jsGet ([[("city", "Boston")]].foldl updatePatterns []) "city").getD []).Nodup ∧
    (getSuggestions ([[("city", "Boston")]].foldl updatePatterns []) 3 "city" "Bo").Nodup ∧
    List.count "Boston"
        ((jsGet (updatePatterns ([[("city", "Boston")]].foldl updatePatterns [])
            [("city", "Boston")]) "city").getD []) = 1 :=
  claim_C10 [[("city", "Boston")]] [("city", "Boston")] "city" "Bo" 3 "Boston" (by decide)

/-! ## FieldRelationshipGraph (src/FieldRelationshipGraph.js) -/

/-- A graph node `{name, type, connections}` (`connections` is an ES `Set`,
modelled as a duplicate-free insertion-ordered list). -/
structure GraphNode where
  name : String
  nodeType : String
  connections : List String
deriving DecidableEq

/-- The graph state: `nodes` and `edges` are ES `Map`s. The value of an edge
entry is the object `{from, to, ...relationData}`. -/
structure FieldGraph where
  nodes : List (String × GraphNode)
  edges : List (String × List (String × JSVal))
deriving DecidableEq

/-- The `typePatterns` table of `_inferFieldType`, in source insertion order. -/
def typePatternTable : List (String × List String) :=
  [("email", ["email", "mail"]),
   ("phone", ["phone", "tel", "mobile"]),
   ("date", ["date", "birthday", "dob"]),
   ("name", ["name", "first", "last"]),
   ("address", ["address", "street", "addr"]),
   ("city", ["city"]),
   ("zip", ["zip", "postal"]),
   ("country", ["country"]),
   ("number", ["number", "count", "qty"])]

/-- `_inferFieldType(fieldName)`: first table entry one of whose patterns is
contained in the lower-cased field name, defaulting to "text". -/
def inferFieldType (fieldName : String) : String :=
  match typePatternTable.find?
      (fun tp => tp.snd.any (fun p => jsIncludes (jsToLower fieldName) p)) with
  | some tp => tp.fst
  | none => "text"

/-- `addNode(fieldName)`: insert a fresh node only when the key is absent. -/
def addNode (g : FieldGraph) (fieldName : String) : FieldGraph :=
  if (jsGet g.nodes fieldName).isSome then g
  else { g with nodes := g.nodes ++
          [(fieldName, { name := fieldName, nodeType := inferFieldType fieldName,
                         connections := [] })] }

/-- Object spread `{from, to, ...relationData}` (later keys overwrite). -/
def jsMergeObj (base extra : List (String × JSVal)) : List (String × JSVal) :=
  extra.foldl (fun o kv => jsSet o kv.fst kv.snd) base

/-- `nodes.get(key).connections.add(conn)`: record a connection on the node
stored at `key` (an ES `Set` add). -/
def withConnection (nodes : List (String × GraphNode)) (key conn : String) :
    List (String × GraphNode) :=
  nodes.map (fun kv =>
    if kv.fst == key then
      (kv.fst, { kv.snd with connections := setAdd kv.snd.connections conn })
    else kv)

/-- `addEdge(fromField, toField, relationData)`: ensure both nodes, and only
when the `"from-to"` key is absent insert the edge object
`{from, to, ...relationData}` and record the connection on both endpoint
nodes (first `from`, then `to`, as in the source). -/
def addEdge (g : FieldGraph) (fromField toField : String)
    (relationData : List (String × JSVal)) : FieldGraph :=
  if (jsGet (addNode (addNode g fromField) toField).edges
      (fromField ++ "-" ++ toField)).isSome then
    addNode (addNode g fromField) toField
  else
    { nodes := withConnection
        (withConnection (addNode (addNode g fromField) toField).nodes fromField toField)
        toField fromField,
      edges := (addNode (addNode g fromField) toField).edges ++
        [(fromField ++ "-" ++ toField,
          jsMergeObj [("from", JSVal.str fromField), ("to", JSVal.str toField)]
            relationData)] }

/-! ## Claim C8: addEdge idempotence -/

theorem jsGet_append_of_some {α : Type} (l1 l2 : List (String × α)) (k : String) (v : α)
    (h : jsGet l1 k = some v) : jsGet (l1 ++ l2) k = some v := by
  induction l1 with
  | nil => rw [jsGet_nil] at h; exact absurd h (by simp)
  | cons hd tl ih =>
    rw [jsGet_cons] at h
    rw [List.cons_append, jsGet_cons]
    by_cases hk : hd.fst = k
    · rw [if_pos hk] at h ⊢
      exact h
    · rw [if_neg hk] at h ⊢
      exact ih h

theorem jsGet_none_filter_nil {α : Type} (l : List (String × α)) (k : String)
    (h : jsGet l k = none) : l.filter (fun e => e.fst == k) = [] := by
  have hf : List.find? (fun kv => kv.fst == k) l = none := by
    unfold jsGet at h
    exact Option.map_eq_none'.mp h
  rw [List.filter_eq_nil_iff]
  intro e he
  have := List.find?_eq_none.mp hf e he
  simpa using this

theorem addNode_edges (g : FieldGraph) (k : String) : (addNode g k).edges = g.edges := by
  unfold addNode
  split_ifs <;> rfl

theorem addNode_key_isSome (g : FieldGraph) (k : String) :
    (jsGet (addNode g k).nodes k).isSome := by
  unfold addNode
  split_ifs with hs
  · exact hs
  · have hnone : jsGet g.nodes k = none := Option.not_isSome_iff_eq_none.mp hs
    show (jsGet (g.nodes ++ [(k, _)]) k).isSome
    rw [jsGet_append_of_none _ _ _ hnone, jsGet_cons]
    simp

theorem addNode_preserves_isSome (g : FieldGraph) (k f : String)
    (h : (jsGet g.nodes f).isSome) : (jsGet (addNode g k).nodes f).isSome := by
  unfold addNode
  split_ifs with hs
  · exact h
  · match hp : jsGet g.nodes f with
    | none => rw [hp] at h; simp at h
    | some v =>
      show (jsGet (g.nodes ++ [(k, _)]) f).isSome
      rw [jsGet_append_of_some _ _ _ _ hp]
      simp

theorem addNode_of_isSome (g : FieldGraph) (k : String)
    (h : (jsGet g.nodes k).isSome) : addNode g k = g := by
  unfold addNode
  rw [if_pos h]

theorem withConnection_jsGet (nodes : List (String × GraphNode)) (key conn f : String) :
    jsGet (withConnection nodes key conn) f
      = if f = key then
          (jsGet nodes f).map
            (fun n => { n with connections := setAdd n.connections conn })
        else jsGet nodes f := by
  unfold withConnection
  exact jsGet_mapKey nodes key f (fun n => { n with connections := setAdd n.connections conn })

theorem withConnection_isSome (nodes : List (String × GraphNode)) (key conn f : String) :
    (jsGet (withConnection nodes key conn) f).isSome = (jsGet nodes f).isSome := by
  rw [withConnection_jsGet]
  by_cases hf : f = key
  · rw [if_pos hf]
    match jsGet nodes f with
    | none => rfl
    | some n => rfl
  · rw [if_neg hf]

theorem addEdge_of_present (g : FieldGraph) (a b : String) (rd : List (String × JSVal))
    (ha : (jsGet g.nodes a).isSome) (hb : (jsGet g.nodes b).isSome)
    (he : (jsGet g.edges (a ++ "-" ++ b)).isSome) : addEdge g a b rd = g := by
  unfold addEdge
  rw [addNode_of_isSome g a ha, addNode_of_isSome g b hb, if_pos he]

/-- After any `addEdge(fromField, toField)` call both endpoint nodes exist. -/
theorem addEdge_nodes_isSome (g : FieldGraph) (a b : String)
    (rd : List (String × JSVal)) :
    (jsGet (addEdge g a b rd).nodes a).isSome ∧
    (jsGet (addEdge g a b rd).nodes b).isSome := by
  unfold addEdge
  split_ifs with hp
  · exact ⟨addNode_preserves_isSome (addNode g a) b a (addNode_key_isSome g a),
      addNode_key_isSome (addNode g a) b⟩
  · constructor
    · show (jsGet (withConnection
          (withConnection (addNode (addNode g a) b).nodes a b) b a) a).isSome
      rw [withConnection_isSome, withConnection_isSome]
      exact addNode_preserves_isSome (addNode g a) b a (addNode_key_isSome g a)
    · show (jsGet (withConnection
          (withConnection (addNode (addNode g a) b).nodes a b) b a) b).isSome
      rw [withConnection_isSome, withConnection_isSome]
      exact addNode_key_isSome (addNode g a) b

/-- Claim C8: when the key `"a-b"` is absent, the first `addEdge(a, b)` call
inserts exactly one edge entry for it, the second call is a no-op on the whole
graph (no overwrite and no duplicate), and after any `addEdge(a, b)` call
(on any graph `g2`, with any relation data) both endpoint nodes exist in the
node table. -/
theorem claim_C8 (g g2 : FieldGraph) (a b : String)
    (rd rd2 rd3 : List (String × JSVal))
    (h : jsGet g.edges (a ++ "-" ++ b) = none) :
    ((addEdge g a b rd).edges.filter (fun e => e.fst == a ++ "-" ++ b)).length = 1 ∧
    addEdge (addEdge g a b rd) a b rd2 = addEdge g a b rd ∧
    (jsGet (addEdge g2 a b rd3).nodes a).isSome ∧
    (jsGet (addEdge g2 a b rd3).nodes b).isSome := by
  have hedges2 : (addNode (addNode g a) b).edges = g.edges := by
    rw [addNode_edges, addNode_edges]
  have hnone2 : jsGet (addNode (addNode g a) b).edges (a ++ "-" ++ b) = none := by
    rw [hedges2]; exact h
  have hnotsome : ¬(jsGet (addNode (addNode g a) b).edges (a ++ "-" ++ b)).isSome := by
    rw [hnone2]; simp
  have hfirst : addEdge g a b rd =
      { nodes := withConnection
          (withConnection (addNode (addNode g a) b).nodes a b) b a,
        edges := (addNode (addNode g a) b).edges ++
          [(a ++ "-" ++ b,
            jsMergeObj [("from", JSVal.str a), ("to", JSVal.str b)] rd)] } := by
    unfold addEdge
    rw [if_neg hnotsome]
  have ha2 : (jsGet (addNode (addNode g a) b).nodes a).isSome :=
    addNode_preserves_isSome (addNode g a) b a (addNode_key_isSome g a)
  have hb2 : (jsGet (addNode (addNode g a) b).nodes b).isSome :=
    addNode_key_isSome (addNode g a) b
  have hna : (jsGet (addEdge g a b rd).nodes a).isSome :=
    (addEdge_nodes_isSome g a b rd).1
  have hnb : (jsGet (addEdge g a b rd).nodes b).isSome :=
    (addEdge_nodes_isSome g a b rd).2
  refine ⟨?_, ?_, (addEdge_nodes_isSome g2 a b rd3).1,
    (addEdge_nodes_isSome g2 a b rd3).2⟩
  · rw [hfirst]
    show (((addNode (addNode g a) b).edges ++
      [(a ++ "-" ++ b, jsMergeObj [("from", JSVal.str a), ("to", JSVal.str b)] rd)]).filter
        (fun e => e.fst == a ++ "-" ++ b)).length = 1
    rw [List.filter_append, jsGet_none_filter_nil _ _ hnone2]
    simp
  · apply addEdge_of_present _ _ _ _ hna hnb
    rw [hfirst]
    show (jsGet ((addNode (addNode g a) b).edges ++
      [(a ++ "-" ++ b, jsMergeObj [("from", JSVal.str a), ("to", JSVal.str b)] rd)])
        (a ++ "-" ++ b)).isSome
    rw [jsGet_append_of_none _ _ _ hnone2, jsGet_cons]
    simp

/-- Witness for claim C8 on the empty graph with fields "username", "email". -/
theorem claim_C8_witness :
    ((addEdge { nodes := [], edges := [] } "username" "email" []).edges.filter
        (fun e => e.fst == "username" ++ "-" ++ "email")).length = 1 ∧
    addEdge (addEdge { nodes := [], edges := [] } "username" "email" [])
        "username" "email" [("weight", JSVal.num 1)]
      = addEdge { nodes := [], edges := [] } "username" "email" [] ∧
    (jsGet (addEdge { nodes := [], edges := [] } "username" "email" []).nodes
        "username").isSome ∧
    (jsGet (addEdge { nodes := [], edges := [] } "username" "email" []).nodes
        "email").isSome :=
  claim_C8 { nodes := [], edges := [] } { nodes := [], edges := [] }
    "username" "email" [] [("weight", JSVal.num 1)] [] (by decide)

/-! ## FieldValidator (src/FieldValidator.js) -/

/-- The empty-value guard shared by all non-`required` rules:
`value === null || value === undefined || value === ''`. -/
def isEmptyValue (v : JSVal) : Bool :=
  match v with
  | JSVal.jsNull => true
  | JSVal.undef => true
  | JSVal.str s => s == ""
  | JSVal.num _ => false

/-- The test of `/^[^\s@]+@[^\s@]+\.[^\s@]+$/`: no whitespace, exactly one
`@` splitting a non-empty local part from a domain that contains a dot which
is neither its first nor its last character. -/
def emailRegexTest (s : String) : Bool :=
  match listSplitOnChar '@' s.toList with
  | [localPart, domain] =>
    !localPart.isEmpty &&
    localPart.all (fun c => !c.isWhitespace) &&
    domain.all (fun c => !c.isWhitespace) &&
    ((domain.drop 1).dropLast).contains '.'
  | _ => false

/-- `_validateEmail`. -/
def validateEmail (v : JSVal) : Bool :=
  if isEmptyValue v then true else emailRegexTest (jsValToString v)

/-- The test of `/^[\+]?[\d\s\-\(\)]{10,}$/`: an optional leading `+`
followed by at least ten characters drawn from digits, whitespace, `-`,
`(`, `)`. -/
def phoneRegexTest (s : String) : Bool :=
  let body := match s.toList with
    | '+' :: rest => rest
    | l => l
  decide (10 ≤ body.length) &&
  body.all (fun c => c.isDigit || c.isWhitespace || c == '-' || c == '(' || c == ')')

/-- `_validatePhone`. -/
def validatePhone (v : JSVal) : Bool :=
  if isEmptyValue v then true else phoneRegexTest (jsValToString v)

/-- `_validateUrl`; whether `new URL(value)` succeeds is host-environment
behavior, abstracted as the parameter `urlOk`. -/
def validateUrl (urlOk : String → Bool) (v : JSVal) : Bool :=
  if isEmptyValue v then true else urlOk (jsValToString v)

/-- `_validateNumber`; `!isNaN(Number(value))` is the JS numeric coercion,
abstracted as the parameter `numOk`. -/
def validateNumber (numOk : JSVal → Bool) (v : JSVal) : Bool :=
  if isEmptyValue v then true else numOk v

/-- `_validateDate`; `!isNaN(Date.parse(value))` is the JS date parser,
abstracted as the parameter `dateOk`. -/
def validateDate (dateOk : JSVal → Bool) (v : JSVal) : Bool :=
  if isEmptyValue v then true else dateOk v

/-- `_validateRequired`: null/undefined fail; otherwise the trimmed string
rendering must be non-empty. -/
def validateRequired (v : JSVal) : Bool :=
  match v with
  | JSVal.jsNull => false
  | JSVal.undef => false
  | _ => !(jsTrim (jsValToString v) == "")

/-- `_validatePattern`; the JS regex engine is abstracted as `regexCompile`,
which returns `none` when `new RegExp(pattern)` throws — in that case the
source fails open and reports valid. -/
def validatePattern (regexCompile : String → Option (String → Bool))
    (v : JSVal) (pattern : String) : Bool :=
  if isEmptyValue v then true
  else
    match regexCompile pattern with
    | none => true
    | some test => test (jsValToString v)

/-- `_validateMinLength`. -/
def validateMinLength (v : JSVal) (minLength : ℕ) : Bool :=
  if isEmptyValue v then true else decide (minLength ≤ (jsValToString v).toList.length)

/-- `_validateMaxLength`. -/
def validateMaxLength (v : JSVal) (maxLength : ℕ) : Bool :=
  if isEmptyValue v then true else decide ((jsValToString v).toList.length ≤ maxLength)

/-- The constructor's `this.rules` table, keyed by rule name, in source
order. -/
def rulesTable (urlOk : String → Bool) (numOk dateOk : JSVal → Bool) :
    List (String × (JSVal → Bool)) :=
  [("email", validateEmail),
   ("phone", validatePhone),
   ("url", validateUrl urlOk),
   ("number", validateNumber numOk),
   ("date", validateDate dateOk),
   ("required", validateRequired)]

/-- `_getNameBasedValidation(fieldName, value)`: keyword checks on the
lower-cased name, in source order; `none` when no keyword matches. -/
def nameBasedValidation (urlOk : String → Bool) (numOk : JSVal → Bool)
    (fieldName : String) (v : JSVal) : Option (String × Bool) :=
  if jsIncludes (jsToLower fieldName) "email" then
    some ("email", validateEmail v)
  else if jsIncludes (jsToLower fieldName) "phone"
      || jsIncludes (jsToLower fieldName) "tel" then
    some ("phone", validatePhone v)
  else if jsIncludes (jsToLower fieldName) "url"
      || jsIncludes (jsToLower fieldName) "website" then
    some ("url", validateUrl urlOk v)
  else if jsIncludes (jsToLower fieldName) "number"
      || jsIncludes (jsToLower fieldName) "count"
      || jsIncludes (jsToLower fieldName) "amount" then
    some ("number", validateNumber numOk v)
  else none

/-- The field description as `validate` reads it: `name`/`id` (empty string
when absent), `type` (empty string when absent, defaulted to "text"),
the `required` flag, and the optional `pattern`/`minLength`/`maxLength`
attributes (JS truthiness: an empty pattern or a zero length is skipped). -/
structure FieldDesc where
  name : String
  id : String
  fieldType : String
  required : Bool
  pattern : Option String
  minLength : Option ℕ
  maxLength : Option ℕ
deriving DecidableEq

/-- The own (literal) keys of the `this.rules` object set up by the
constructor. -/
def rulesOwnKeys : List String :=
  ["email", "phone", "url", "number", "date", "required"]

/-- The property names that `this.rules[fieldType]` can reach through the
`Object.prototype` chain of the plain object literal `this.rules`. -/
def protoMemberKeys : List String :=
  ["constructor", "hasOwnProperty", "isPrototypeOf", "propertyIsEnumerable",
   "toLocaleString", "toString", "valueOf", "__proto__",
   "__defineGetter__", "__defineSetter__", "__lookupGetter__", "__lookupSetter__"]

/-- Evaluating `this.rules[member](value)` for an inherited `Object.prototype`
member (every such member is itself truthy, so the `if (this.rules[fieldType])`
guard passes): `some b` is the JS truthiness of the returned check value,
`none` means the call throws a `TypeError`.
`hasOwnProperty`/`propertyIsEnumerable` test the stringified value against the
own keys of `this.rules`; `isPrototypeOf` is false on primitive arguments;
`toString`, `toLocaleString`, `valueOf` and `constructor` return truthy
strings/objects; `__lookupGetter__`/`__lookupSetter__` return an accessor
function (truthy) only for the key "__proto__" and `undefined` (falsy)
otherwise; reading `__proto__` yields `Object.prototype`, which is not
callable, and `__defineGetter__`/`__defineSetter__` require a callable second
argument, so those three throw. -/
def protoMemberCall (member : String) (v : JSVal) : Option Bool :=
  if member == "hasOwnProperty" || member == "propertyIsEnumerable" then
    some (rulesOwnKeys.contains (jsValToString v))
  else if member == "isPrototypeOf" then some false
  else if member == "toString" || member == "toLocaleString"
      || member == "valueOf" || member == "constructor" then some true
  else if member == "__lookupGetter__" || member == "__lookupSetter__" then
    some (jsValToString v == "__proto__")
  else none

/-- The type-based checks pushed by `validate`: the JS property lookup
`this.rules[fieldType]` finds an own rule first, otherwise an inherited
`Object.prototype` member; a property absent from both yields `undefined`
(falsy), so nothing is pushed.  `none` means the pushed call threw. -/
def typeRuleChecks (urlOk : String → Bool) (numOk dateOk : JSVal → Bool)
    (fieldType : String) (v : JSVal) : Option (List (String × Bool)) :=
  match jsGet (rulesTable urlOk numOk dateOk) fieldType with
  | some rule => some [(fieldType, rule v)]
  | none =>
    if protoMemberKeys.contains fieldType then
      match protoMemberCall fieldType v with
      | some b => some [(fieldType, b)]
      | none => none
    else some []

/-- `const fieldName = field.name || field.id || 'unknown'`. -/
def effectiveFieldName (field : FieldDesc) : String :=
  if field.name == "" then (if field.id == "" then "unknown" else field.id)
  else field.name

/-- `const fieldType = field.type || 'text'`. -/
def effectiveFieldType (field : FieldDesc) : String :=
  if field.fieldType == "" then "text" else field.fieldType

/-- The attribute-based checks pushed before the type rule: required, pattern,
minLength, maxLength, in source order (JS truthiness skips an empty pattern
and a zero length). -/
def attrChecks (regexCompile : String → Option (String → Bool))
    (field : FieldDesc) (v : JSVal) : List (String × Bool) :=
  (if field.required then [("required", validateRequired v)] else []) ++
  (match field.pattern with
    | some p => if p == "" then [] else [("pattern", validatePattern regexCompile v p)]
    | none => []) ++
  (match field.minLength with
    | some n => if n = 0 then [] else [("minLength", validateMinLength v n)]
    | none => []) ++
  (match field.maxLength with
    | some n => if n = 0 then [] else [("maxLength", validateMaxLength v n)]
    | none => [])

/-- The name-based check pushed last. -/
def nameChecks (urlOk : String → Bool) (numOk : JSVal → Bool)
    (field : FieldDesc) (v : JSVal) : List (String × Bool) :=
  match nameBasedValidation urlOk numOk (effectiveFieldName field) v with
  | some rv => [rv]
  | none => []

/-- `validate(field, value)`: collect the applicable `(rule, valid)` checks in
source order — required, pattern, minLength, maxLength, the type-based rule
reached through `this.rules[fieldType]` (own keys first, then the
`Object.prototype` chain), then the name-based rule — and report overall
validity.  The result is `none` when the type-based call throws a `TypeError`
(the exception aborts `validate` before the name-based push and the `every`). -/
def validate (urlOk : String → Bool) (numOk dateOk : JSVal → Bool)
    (regexCompile : String → Option (String → Bool))
    (field : FieldDesc) (v : JSVal) : Option (Bool × List (String × Bool)) :=
  match typeRuleChecks urlOk numOk dateOk (effectiveFieldType field) v with
  | none => none
  | some v5 =>
    let validations :=
      attrChecks regexCompile field v ++ v5 ++ nameChecks urlOk numOk field v
    some (validations.all (fun rv => rv.snd), validations)

/-! ## Claim C9: empty values pass every rule except `required` -/

theorem validateEmail_empty (v : JSVal) (hemp : isEmptyValue v = true) :
    validateEmail v = true := by
  unfold validateEmail
  rw [if_pos hemp]

theorem validatePhone_empty (v : JSVal) (hemp : isEmptyValue v = true) :
    validatePhone v = true := by
  unfold validatePhone
  rw [if_pos hemp]

theorem validateUrl_empty (urlOk : String → Bool) (v : JSVal)
    (hemp : isEmptyValue v = true) : validateUrl urlOk v = true := by
  unfold validateUrl
  rw [if_pos hemp]

theorem validateNumber_empty (numOk : JSVal → Bool) (v : JSVal)
    (hemp : isEmptyValue v = true) : validateNumber numOk v = true := by
  unfold validateNumber
  rw [if_pos hemp]

theorem validateDate_empty (dateOk : JSVal → Bool) (v : JSVal)
    (hemp : isEmptyValue v = true) : validateDate dateOk v = true := by
  unfold validateDate
  rw [if_pos hemp]

theorem validatePattern_empty (regexCompile : String → Option (String → Bool))
    (v : JSVal) (p : String) (hemp : isEmptyValue v = true) :
    validatePattern regexCompile v p = true := by
  unfold validatePattern
  rw [if_pos hemp]

theorem validateMinLength_empty (v : JSVal) (n : ℕ) (hemp : isEmptyValue v = true) :
    validateMinLength v n = true := by
  unfold validateMinLength
  rw [if_pos hemp]

theorem validateMaxLength_empty (v : JSVal) (n : ℕ) (hemp : isEmptyValue v = true) :
    validateMaxLength v n = true := by
  unfold validateMaxLength
  rw [if_pos hemp]

theorem rulesTable_rule_true (urlOk : String → Bool) (numOk dateOk : JSVal → Bool)
    (ft : String) (v : JSVal) (rule : JSVal → Bool) (hemp : isEmptyValue v = true)
    (hne : ft ≠ "required")
    (hr : jsGet (rulesTable urlOk numOk dateOk) ft = some rule) : rule v = true := by
  unfold rulesTable at hr
  rw [jsGet_cons] at hr
  by_cases h1 : "email" = ft
  · rw [if_pos h1] at hr
    injection hr with h
    rw [← h]
    exact validateEmail_empty v hemp
  rw [if_neg h1, jsGet_cons] at hr
  by_cases h2 : "phone" = ft
  · rw [if_pos h2] at hr
    injection hr with h
    rw [← h]
    exact validatePhone_empty v hemp
  rw [if_neg h2, jsGet_cons] at hr
  by_cases h3 : "url" = ft
  · rw [if_pos h3] at hr
    injection hr with h
    rw [← h]
    exact validateUrl_empty urlOk v hemp
  rw [if_neg h3, jsGet_cons] at hr
  by_cases h4 : "number" = ft
  · rw [if_pos h4] at hr
    injection hr with h
    rw [← h]
    exact validateNumber_empty numOk v hemp
  rw [if_neg h4, jsGet_cons] at hr
  by_cases h5 : "date" = ft
  · rw [if_pos h5] at hr
    injection hr with h
    rw [← h]
    exact validateDate_empty dateOk v hemp
  rw [if_neg h5, jsGet_cons] at hr
  by_cases h6 : "required" = ft
  · exact absurd h6.symm hne
  rw [if_neg h6, jsGet_nil] at hr
  exact absurd hr (by simp)

theorem nameBasedValidation_true (urlOk : String → Bool) (numOk : JSVal → Bool)
    (fieldName : String) (v : JSVal) (hemp : isEmptyValue v = true) :
    ∀ rv, nameBasedValidation urlOk numOk fieldName v = some rv → rv.snd = true := by
  intro rv h
  unfold nameBasedValidation at h
  split_ifs at h with h1 h2 h3 h4
  · injection h with h'
    rw [← h']
    exact validateEmail_empty v hemp
  · injection h with h'
    rw [← h']
    exact validatePhone_empty v hemp
  · injection h with h'
    rw [← h']
    exact validateUrl_empty urlOk v hemp
  · injection h with h'
    rw [← h']
    exact validateNumber_empty numOk v hemp


theorem attrChecks_true (regexCompile : String → Option (String → Bool))
    (field : FieldDesc) (v : JSVal) (hemp : isEmptyValue v = true)
    (hreq : field.required = false) :
    ∀ rv ∈ attrChecks regexCompile field v, rv.snd = true := by
  intro rv hrv
  unfold attrChecks at hrv
  simp only [hreq, Bool.false_eq_true, if_false, List.nil_append] at hrv
  rcases List.mem_append.mp hrv with hrv3 | hrv4'
  · rcases List.mem_append.mp hrv3 with hrv2 | hrv3'
    · match hpat : field.pattern with
      | none =>
        rw [hpat] at hrv2
        change rv ∈ ([] : List (String × Bool)) at hrv2
        exact absurd hrv2 (List.not_mem_nil rv)
      | some p =>
        rw [hpat] at hrv2
        change rv ∈ (if (p == "") = true then []
          else [("pattern", validatePattern regexCompile v p)]) at hrv2
        by_cases hp : (p == "") = true
        · rw [if_pos hp] at hrv2
          exact absurd hrv2 (List.not_mem_nil rv)
        · rw [if_neg hp, List.mem_singleton] at hrv2
          rw [hrv2]
          exact validatePattern_empty regexCompile v p hemp
    · match hmin : field.minLength with
      | none =>
        rw [hmin] at hrv3'
        change rv ∈ ([] : List (String × Bool)) at hrv3'
        exact absurd hrv3' (List.not_mem_nil rv)
      | some n =>
        rw [hmin] at hrv3'
        change rv ∈ (if n = 0 then []
          else [("minLength", validateMinLength v n)]) at hrv3'
        by_cases hn : n = 0
        · rw [if_pos hn] at hrv3'
          exact absurd hrv3' (List.not_mem_nil rv)
        · rw [if_neg hn, List.mem_singleton] at hrv3'
          rw [hrv3']
          exact validateMinLength_empty v n hemp
  · match hmax : field.maxLength with
    | none =>
      rw [hmax] at hrv4'
      change rv ∈ ([] : List (String × Bool)) at hrv4'
      exact absurd hrv4' (List.not_mem_nil rv)
    | some n =>
      rw [hmax] at hrv4'
      change rv ∈ (if n = 0 then []
        else [("maxLength", validateMaxLength v n)]) at hrv4'
      by_cases hn : n = 0
      · rw [if_pos hn] at hrv4'
        exact absurd hrv4' (List.not_mem_nil rv)
      · rw [if_neg hn, List.mem_singleton] at hrv4'
        rw [hrv4']
        exact validateMaxLength_empty v n hemp

theorem nameChecks_true (urlOk : String → Bool) (numOk : JSVal → Bool)
    (field : FieldDesc) (v : JSVal) (hemp : isEmptyValue v = true) :
    ∀ rv ∈ nameChecks urlOk numOk field v, rv.snd = true := by
  intro rv hrv
  unfold nameChecks at hrv
  match hnb : nameBasedValidation urlOk numOk (effectiveFieldName field) v with
  | none =>
    rw [hnb] at hrv
    change rv ∈ ([] : List (String × Bool)) at hrv
    exact absurd hrv (List.not_mem_nil rv)
  | some rv' =>
    rw [hnb] at hrv
    change rv ∈ [rv'] at hrv
    rw [List.mem_singleton] at hrv
    rw [hrv]
    exact nameBasedValidation_true urlOk numOk _ v hemp rv' hnb

/-- When the field type is neither `required` nor an inherited
`Object.prototype` member, the type-based dispatch does not throw and any
check it pushes on an empty value is valid. -/
theorem typeRuleChecks_of_safe (urlOk : String → Bool) (numOk dateOk : JSVal → Bool)
    (ft : String) (v : JSVal) (hemp : isEmptyValue v = true) (hne : ft ≠ "required")
    (hproto : protoMemberKeys.contains ft = false) :
    ∃ v5, typeRuleChecks urlOk numOk dateOk ft v = some v5 ∧
      ∀ rv ∈ v5, rv.snd = true := by
  match hrule : jsGet (rulesTable urlOk numOk dateOk) ft with
  | some rule =>
    refine ⟨[(ft, rule v)], ?_, ?_⟩
    · unfold typeRuleChecks
      rw [hrule]
    · intro rv hrv
      rw [List.mem_singleton] at hrv
      rw [hrv]
      exact rulesTable_rule_true urlOk numOk dateOk ft v rule hemp hne hrule
  | none =>
    refine ⟨[], ?_, ?_⟩
    · unfold typeRuleChecks
      rw [hrule]
      show (if protoMemberKeys.contains ft = true then
          (match protoMemberCall ft v with
           | some b => some [(ft, b)]
           | none => none)
        else some ([] : List (String × Bool))) = some []
      rw [hproto]
      simp
    · intro rv hrv
      exact absurd hrv (List.not_mem_nil rv)

theorem validate_of_typeChecks (urlOk : String → Bool) (numOk dateOk : JSVal → Bool)
    (regexCompile : String → Option (String → Bool)) (field : FieldDesc) (v : JSVal)
    (v5 : List (String × Bool))
    (h : typeRuleChecks urlOk numOk dateOk (effectiveFieldType field) v = some v5) :
    validate urlOk numOk dateOk regexCompile field v
      = some ((attrChecks regexCompile field v ++ v5
            ++ nameChecks urlOk numOk field v).all (fun rv => rv.snd),
          attrChecks regexCompile field v ++ v5 ++ nameChecks urlOk numOk field v) := by
  unfold validate
  rw [h]

/-- `validate` reports valid (and does not throw) on an empty value when the
field is not required and its declared type string is neither the literal
"required" nor an inherited `Object.prototype` member name. -/
theorem validate_valid_of_empty (urlOk : String → Bool) (numOk dateOk : JSVal → Bool)
    (regexCompile : String → Option (String → Bool)) (field : FieldDesc) (v : JSVal)
    (hemp : isEmptyValue v = true) (hreq : field.required = false)
    (htype : field.fieldType ≠ "required")
    (hproto : protoMemberKeys.contains field.fieldType = false) :
    (validate urlOk numOk dateOk regexCompile field v).map Prod.fst = some true := by
  have hftne : effectiveFieldType field ≠ "required" := by
    unfold effectiveFieldType
    by_cases hft : (field.fieldType == "") = true
    · rw [if_pos hft]
      decide
    · rw [if_neg hft]
      exact htype
  have hftproto : protoMemberKeys.contains (effectiveFieldType field) = false := by
    unfold effectiveFieldType
    by_cases hft : (field.fieldType == "") = true
    · rw [if_pos hft]
      decide
    · rw [if_neg hft]
      exact hproto
  obtain ⟨v5, hv5, hv5t⟩ := typeRuleChecks_of_safe urlOk numOk dateOk
    (effectiveFieldType field) v hemp hftne hftproto
  rw [validate_of_typeChecks urlOk numOk dateOk regexCompile field v v5 hv5]
  simp only [Option.map_some']
  refine congrArg some ?_
  show (attrChecks regexCompile field v ++ v5
      ++ nameChecks urlOk numOk field v).all (fun rv => rv.snd) = true
  rw [List.all_eq_true]
  intro rv hrv
  rcases List.mem_append.mp hrv with h12 | h3
  · rcases List.mem_append.mp h12 with h1 | h2
    · exact attrChecks_true regexCompile field v hemp hreq rv h1
    · exact hv5t rv h2
  · exact nameChecks_true urlOk numOk field v hemp rv h3

/-- Claim C9's consequence part, as stated ("validate on an empty optional
field always reports valid"), is false: a non-required field whose declared
type string is the literal "required" dispatches `_validateRequired` through
`this.rules[fieldType]` and reports invalid; the same lookup follows the
`Object.prototype` chain, so type "hasOwnProperty" pushes the failing check
`rules.hasOwnProperty('') === false`, and type "__proto__" makes `validate`
throw a `TypeError` (the result is `none`). -/
theorem claim_C9_counterexample :
    (validate (fun _ => true) (fun _ => true) (fun _ => true) (fun _ => none)
      { name := "x", id := "", fieldType := "required", required := false,
        pattern := none, minLength := none, maxLength := none }
      (JSVal.str "")).map Prod.fst = some false ∧
    (validate (fun _ => true) (fun _ => true) (fun _ => true) (fun _ => none)
      { name := "x", id := "", fieldType := "hasOwnProperty", required := false,
        pattern := none, minLength := none, maxLength := none }
      (JSVal.str "")).map Prod.fst = some false ∧
    (validate (fun _ => true) (fun _ => true) (fun _ => true) (fun _ => none)
      { name := "x", id := "", fieldType := "__proto__", required := false,
        pattern := none, minLength := none, maxLength := none }
      (JSVal.str "")) = none := by
  refine ⟨by decide, by decide, by decide⟩

/-- Claim C9 (amended): every enumerated non-`required` rule (email, phone,
url, number, date, pattern, minLength, maxLength) accepts `null`, `undefined`
and the empty string, while `required` rejects them; consequently `validate`
on an empty optional field reports valid, provided the field's declared type
string is neither the literal "required" nor the name of an inherited
`Object.prototype` member — the dispatch `this.rules[fieldType]` reaches both,
routing the `required` rule or an inherited function into the checks. -/
theorem claim_C9 (urlOk : String → Bool) (numOk dateOk : JSVal → Bool)
    (regexCompile : String → Option (String → Bool)) (p : String) (n : ℕ)
    (field : FieldDesc) (v : JSVal)
    (hv : v = JSVal.jsNull ∨ v = JSVal.undef ∨ v = JSVal.str "")
    (hreq : field.required = false) (htype : field.fieldType ≠ "required")
    (hproto : protoMemberKeys.contains field.fieldType = false) :
    validateEmail v = true ∧ validatePhone v = true ∧ validateUrl urlOk v = true ∧
    validateNumber numOk v = true ∧ validateDate dateOk v = true ∧
    validatePattern regexCompile v p = true ∧ validateMinLength v n = true ∧
    validateMaxLength v n = true ∧ validateRequired v = false ∧
    (validate urlOk numOk dateOk regexCompile field v).map Prod.fst = some true := by
  have hemp : isEmptyValue v = true := by
    rcases hv with rfl | rfl | rfl <;> rfl
  refine ⟨validateEmail_empty v hemp, validatePhone_empty v hemp,
    validateUrl_empty urlOk v hemp, validateNumber_empty numOk v hemp,
    validateDate_empty dateOk v hemp, validatePattern_empty regexCompile v p hemp,
    validateMinLength_empty v n hemp, validateMaxLength_empty v n hemp, ?_,
    validate_valid_of_empty urlOk numOk dateOk regexCompile field v hemp hreq
      htype hproto⟩
  rcases hv with rfl | rfl | rfl <;> rfl

/-- Witness for claim C9 at a concrete optional email field and empty value. -/
theorem claim_C9_witness :
    validateEmail (JSVal.str "") = true ∧ validatePhone (JSVal.str "") = true ∧
    validateUrl (fun _ => false) (JSVal.str "") = true ∧
    validateNumber (fun _ => false) (JSVal.str "") = true ∧
    validateDate (fun _ => false) (JSVal.str "") = true ∧
    validatePattern (fun _ => none) (JSVal.str "") "[0-9]+" = true ∧
    validateMinLength (JSVal.str "") 4 = true ∧
    validateMaxLength (JSVal.str "") 4 = true ∧
    validateRequired (JSVal.str "") = false ∧
    (validate (fun _ => false) (fun _ => false) (fun _ => false) (fun _ => none)
      { name := "email", id := "", fieldType := "email", required := false,
        pattern := some "[0-9]+", minLength := some 2, maxLength := some 9 }
      (JSVal.str "")).map Prod.fst = some true :=
  claim_C9 (fun _ => false) (fun _ => false) (fun _ => false) (fun _ => none)
    "[0-9]+" 4
    { name := "email", id := "", fieldType := "email", required := false,
      pattern := some "[0-9]+", minLength := some 2, maxLength := some 9 }
    (JSVal.str "") (Or.inr (Or.inr rfl)) rfl (by decide) (by decide)
